import Mathlib

/-!
Verification development for the lieko-express request-dispatch pipeline
(`src/lieko-express.js`).  The JavaScript source is shallowly embedded:
pure fragments become Lean functions, the mutable response object becomes an
explicit `Res` state record, middleware/handlers become state transformers,
and the per-request control flow of `_handleRequest` becomes a function that
also emits a trace of pipeline events.  All definitions are executable so
that concrete requests can be evaluated inside proofs.
-/

set_option autoImplicit false

namespace Lieko

/-! ## JavaScript error values

Models the `Error` objects the framework creates: a message plus the
optional `status` and `code` fields the body parser attaches
(`src/lieko-express.js:708-710`). -/

structure JsError where
  message : String
  status : Option Nat := none
  code : Option String := none
deriving DecidableEq, Repr

/-! ## Response state

Models the Node response object after `_enhanceResponse`
(`src/lieko-express.js:1785-2068`) together with the transport-level
flags the dispatcher reads.

* `nodeStatus` is the raw `res.statusCode` field (assigned directly by
  `_applyCors`), `closureStatus` is the `statusCode` variable captured by
  the closures installed in `_enhanceResponse`; `res.status(code)` sets
  both, and a bare `res.end` sends `nodeStatus` while `res.json`/`res.send`
  pass `closureStatus` to `writeHead`.
* `headersSent` is Node's read-only flag (set once the head is written),
  `responseSent` is the private `responseSent` variable that only
  `res.json` / `res.send` / `res.render` / `res.redirect` set.
* `out` records the bodies actually written to the transport and
  `endCalls` counts every `res.end` attempt (a write after the stream has
  finished is not delivered).
* Header bookkeeping: `setHeader` is modelled as a pure insert/replace;
  Node additionally throws when it is called after the head was sent,
  which no theorem below relies on. -/

structure Res where
  nodeStatus : Nat := 200
  closureStatus : Nat := 200
  headers : List (String × String) := []
  headersSent : Bool := false
  responseSent : Bool := false
  finished : Bool := false
  sentStatus : Option Nat := none
  out : List String := []
  endCalls : Nat := 0
deriving DecidableEq, Repr

def initRes : Res := {}

/-- Insert-or-replace on an association list, keeping the original key
position, as assignment to a JS object field does (keys are unique by
construction). -/
def upsert : List (String × String) → String → String → List (String × String)
  | [], k, v => [(k, v)]
  | (a, b) :: t, k, v => if a = k then (k, v) :: t else (a, b) :: upsert t k v

/-- Models `res.setHeader` (`src/lieko-express.js:1829-1832`). -/
def setHeader (res : Res) (k v : String) : Res :=
  { res with headers := upsert res.headers k v }

/-- Models `res.status(code)` (`src/lieko-express.js:1821-1825`): sets the
closure variable and the raw `res.statusCode` field. -/
def resStatus (res : Res) (code : Nat) : Res :=
  { res with nodeStatus := code, closureStatus := code }

/-- Models a bare `res.end(body)` with no preceding `writeHead`, as used by
`_applyCors`: marks the head as sent with the raw `nodeStatus`, but does
NOT set the enhancement-layer `responseSent` flag.  A second `end` on a
finished stream delivers nothing. -/
def rawEnd (res : Res) (body : String) : Res :=
  if res.finished then { res with endCalls := res.endCalls + 1 }
  else
    { res with finished := true, headersSent := true,
               sentStatus := some res.nodeStatus,
               out := res.out ++ [body], endCalls := res.endCalls + 1 }

/-- Models `res.json(data)` (`src/lieko-express.js:1933-1944`), with `data`
already rendered to its JSON string: a no-op when `responseSent` is set;
otherwise `writeHead(closureStatus, ...)` followed by `end`.  The returned
flag records whether `writeHead` threw `ERR_HTTP_HEADERS_SENT` (which
happens when the head was already sent by a bare `end`). -/
def resJson (res : Res) (body : String) : Res × Bool :=
  if res.responseSent then (res, false)
  else if res.headersSent then (res, true)
  else
    ({ res with headersSent := true, responseSent := true, finished := true,
                sentStatus := some res.closureStatus, closureStatus := 200,
                out := res.out ++ [body], endCalls := res.endCalls + 1 }, false)

/-- The argument shapes `res.send` distinguishes
(`src/lieko-express.js:1946-1972`). -/
inductive SendData where
  | strD (s : String)
  | objD (json : String)
  | nullD
  | otherD (s : String)
deriving DecidableEq, Repr

def sendBody : SendData → String
  | .strD s => s
  | .objD j => j
  | .nullD => "null"
  | .otherD s => s

/-- Models `res.send(data)` (`src/lieko-express.js:1946-1972`): same
`responseSent` check and write path as `res.json`. -/
def resSend (res : Res) (d : SendData) : Res × Bool :=
  if res.responseSent then (res, false)
  else if res.headersSent then (res, true)
  else
    ({ res with headersSent := true, responseSent := true, finished := true,
                sentStatus := some res.closureStatus, closureStatus := 200,
                out := res.out ++ [sendBody d], endCalls := res.endCalls + 1 }, false)

/-- Models `res.html(html, status)` (`src/lieko-express.js:1974-1978`).
Unlike `res.json`/`res.send` it performs NO `responseSent` check: it
assigns `res.statusCode`, sets a header and calls `res.end` directly.
(On a response whose head is already sent, real Node raises at the
`setHeader` call — after the status-code assignment has taken effect.) -/
def resHtml (res : Res) (html : String) (status : Nat) : Res :=
  let res1 := { res with nodeStatus := status }
  let res2 := setHeader res1 "Content-Type" "text/html; charset=utf-8"
  rawEnd res2 html

end Lieko

namespace Lieko

/-! ## PathPattern compiler (`_pathToRegex`, `src/lieko-express.js:1395-1420`)

The produced JavaScript regex is embedded as a token list: a path character
becomes a literal token, `:name` (name = maximal `\w+` run) becomes a named
`[^/]+` capture, `*` becomes `.*`.  The model covers route paths that do not
contain further regex metacharacters (the source splices path characters
into the pattern unescaped). -/

inductive PatTok where
  | lit (c : Char)
  | param (name : String)
  | wild
deriving DecidableEq, Repr

/-- Compiled form of the value `_pathToRegex` returns: either the special
root regex `/^\/?$/`, or an anchored token pattern with an optional
trailing-slash suffix (`/?`) for static routes. -/
structure CompiledPat where
  root : Bool
  toks : List PatTok
  optSlash : Bool
deriving DecidableEq, Repr

/-- JS `String.prototype.trim` on the character list (whitespace at both
ends removed). -/
def trimChars (cs : List Char) : List Char :=
  ((cs.dropWhile Char.isWhitespace).reverse.dropWhile Char.isWhitespace).reverse

/-- Models `p.replace(/\/+/g, '/')`: every run of slashes becomes one. -/
def collapse : List Char → List Char
  | [] => []
  | [c] => [c]
  | a :: b :: rest =>
    if a = '/' ∧ b = '/' then collapse (b :: rest)
    else a :: collapse (b :: rest)

def endsWithSlash (s : String) : Bool :=
  s.data.getLast? = some '/'

def dropLastS (s : String) : String :=
  String.mk s.data.dropLast

/-- The shared normalization of `_addRoute` and `_pathToRegex`
(`src/lieko-express.js:1366-1371` and `1396-1401`): trim, collapse slash
runs, strip one trailing slash unless the whole path is `/`. -/
def normalizePath (path : String) : String :=
  let p := String.mk (collapse (trimChars path.data))
  if p ≠ "/" ∧ endsWithSlash p then dropLastS p else p

/-- JS `\w`: ASCII letters, digits and underscore. -/
def isWordChar (c : Char) : Bool :=
  c.isAlphanum || c = '_'

/-- Tokenizes the normalized path, mirroring the two global replaces
`:(\w+) → (?<name>[^/]+)` and `* → .*`.  Fueled to stay structurally
recursive; `fuel ≥ length` always suffices because every step consumes at
least one character. -/
def tokenizeF : Nat → List Char → List PatTok
  | 0, _ => []
  | _ + 1, [] => []
  | fuel + 1, c :: rest =>
    if c = '*' then .wild :: tokenizeF fuel rest
    else if c = ':' then
      let name := rest.takeWhile isWordChar
      if name.isEmpty then .lit c :: tokenizeF fuel rest
      else .param (String.mk name) :: tokenizeF fuel (rest.drop name.length)
    else .lit c :: tokenizeF fuel rest

def tokenize (cs : List Char) : List PatTok :=
  tokenizeF cs.length cs

def hasChar (s : String) (c : Char) : Bool :=
  s.data.any (· = c)

/-- Models `_pathToRegex` (`src/lieko-express.js:1395-1420`).  The
`allowTrailing` argument is `settings.allowTrailingSlash !== false`
(default `true`). -/
def pathToRegex (allowTrailing : Bool) (path : String) : CompiledPat :=
  let p := normalizePath path
  if p = "/" then ⟨true, [], false⟩
  else
    let isStatic := !(hasChar p ':') && !(hasChar p '*')
    ⟨false, tokenize p.data, isStatic && allowTrailing⟩

/-! ### Matching

`mtch` implements the anchored match of the compiled token pattern with
JavaScript's greedy backtracking semantics: a `[^/]+` group first tries the
longest slash-free prefix, `.*` first tries to consume everything. -/

/-- Greedy search for a `(?<name>[^/]+)` group: try consuming `k`
characters, then `k-1`, ..., down to `1`. -/
def paramSearch (cont : List Char → Option (List (String × String)))
    (n : String) (cs : List Char) : Nat → Option (List (String × String))
  | 0 => none
  | k + 1 =>
    (if (cs.take (k + 1)).any (· = '/') then none
     else (cont (cs.drop (k + 1))).map
       (fun caps => (n, String.mk (cs.take (k + 1))) :: caps)).orElse
      (fun _ => paramSearch cont n cs k)

/-- Greedy search for `.*`: try consuming `j` characters, then fewer. -/
def wildSearch (cont : List Char → Option (List (String × String)))
    (cs : List Char) : Nat → Option (List (String × String))
  | 0 => cont cs
  | j + 1 => (cont (cs.drop (j + 1))).orElse (fun _ => wildSearch cont cs j)

/-- Anchored match of a token pattern against a full character list,
returning the named captures on success. -/
def mtch : List PatTok → List Char → Option (List (String × String))
  | [], cs => if cs.isEmpty then some [] else none
  | .lit _ :: _, [] => none
  | .lit c :: ts, x :: xs => if x = c then mtch ts xs else none
  | .param n :: ts, cs => paramSearch (mtch ts) n cs cs.length
  | .wild :: ts, cs => wildSearch (mtch ts) cs cs.length

/-- Models `pathname.match(route.pattern)` for a compiled route pattern:
the root pattern accepts `/` and the empty string; a pattern with the
optional `/?` suffix also accepts the string with one final slash
removed. -/
def patMatch (cp : CompiledPat) (s : String) : Option (List (String × String)) :=
  if cp.root then (if s = "/" ∨ s = "" then some [] else none)
  else
    match mtch cp.toks s.data with
    | some caps => some caps
    | none =>
      if cp.optSlash ∧ endsWithSlash s then mtch cp.toks (dropLastS s).data
      else none

end Lieko

namespace Lieko

/-! ## Middleware, handlers and error handlers

JavaScript middleware and handlers are arbitrary functions over the shared
request/response state.  In the embedding they are state transformers on
`Res` together with an explicit description of how they complete, matching
the completion paths `_handleRequest` distinguishes: calling the `next`
continuation (with or without an error), resolving a returned promise, or
rejecting/throwing. -/

inductive MwAct where
  | next (e : Option JsError)
  | pResolve
  | pReject (e : JsError)

def Mw := Res → Res × MwAct

/-- A `{path, handler}` entry of `this.middlewares`
(`src/lieko-express.js:1018-1028`); `path = none` applies to every
request. -/
structure MwEntry where
  mwPath : Option String
  handler : Mw

/-- Completion of a route handler or not-found handler: `some e` models a
synchronous throw or rejected promise. -/
def Handler := Res → Res × Option JsError

/-- Completion of a 4-argument error handler: call the continuation (with
or without an error), throw synchronously, or never call it (which stalls
the awaited chain). -/
inductive ErrAct where
  | callNext (e : Option JsError)
  | throwE (e : JsError)
  | noCall

def ErrH := JsError → Res → Res × ErrAct

/-! ## Route registry -/

/-- Per-route CORS marker.  `_addRoute` never sets `route.cors`, so every
registered route carries `.unset`; the dispatcher nevertheless reads the
field (`src/lieko-express.js:1629-1642`), so the other two shapes are
modelled (`.set` as a whole-policy override merged with `enabled: true`). -/
inductive RouteCors (α : Type) where
  | unset
  | off
  | set (o : α)

structure CorsOptions where
  enabled : Bool := false
  origin : Sum String (List String) := .inl "*"
  strictOrigin : Bool := false
  allowPrivateNetwork : Bool := false
  methods : List String := ["GET", "POST", "PUT", "PATCH", "DELETE", "OPTIONS"]
  headers : List String := ["Content-Type", "Authorization"]
  credentials : Bool := false
  maxAge : Nat := 86400
  exposedHeaders : List String := []
deriving DecidableEq, Repr

/-- Body-parser limit option: a number of bytes or a string such as
`'1mb'` (`_parseLimit`, `src/lieko-express.js:633-650`). -/
inductive LimitSpec where
  | num (n : Nat)
  | str (s : String)
deriving DecidableEq, Repr

structure JsonOpts where
  limit : LimitSpec
  strict : Bool
deriving DecidableEq, Repr

structure UrlencOpts where
  limit : LimitSpec
  extended : Bool
deriving DecidableEq, Repr

structure MultipartOpts where
  limit : LimitSpec
deriving DecidableEq, Repr

structure BodyOpts where
  json : JsonOpts
  urlencoded : UrlencOpts
  multipart : MultipartOpts
deriving DecidableEq, Repr

/-- The constructor defaults (`src/lieko-express.js:432-444`). -/
def defaultBodyOpts : BodyOpts :=
  ⟨⟨.str "10mb", true⟩, ⟨.str "10mb", true⟩, ⟨.str "10mb"⟩⟩

/-- A registered route (`_addRoute`, `src/lieko-express.js:1381-1391`).
`bodyParserOptions` is only populated when the route is spliced in by
`_mountRouter`. -/
structure Route where
  method : String
  path : String
  pattern : CompiledPat
  allowTrailingSlash : Bool
  handler : Handler
  middlewares : List Mw
  cors : RouteCors CorsOptions
  bodyParserOptions : Option BodyOpts

/-- Models a single-path `_addRoute` registration
(`src/lieko-express.js:1349-1392`): normalize the path, compile the
pattern, attach the handler and route middleware.  `allowTS` is the
`allowTrailingSlash` setting (default `true`). -/
def addRouteOne (allowTS : Bool) (method : String) (path : String)
    (mws : List Mw) (h : Handler) : Route :=
  let p := normalizePath path
  { method := method, path := p, pattern := pathToRegex allowTS p,
    allowTrailingSlash := allowTS, handler := h, middlewares := mws,
    cors := .unset, bodyParserOptions := none }

/-- The enriched route `_findRoute` returns: the route spread together
with `params`, `matchedPath` and the trailing-slash marker. -/
structure FoundRoute where
  route : Route
  params : List (String × String)
  matchedPath : String
  wasTrailingSlash : Bool

def methodMatches (r : Route) (m : String) : Bool :=
  r.method = m ∨ r.method = "ALL"

/-- First loop of `_findRoute` (`src/lieko-express.js:1423-1430`): first
registered route whose method fits and whose pattern matches the
pathname. -/
def findRouteMain (m pathname : String) : List Route → Option FoundRoute
  | [] => none
  | r :: rs =>
    if methodMatches r m then
      match patMatch r.pattern pathname with
      | some caps => some ⟨r, caps, pathname, false⟩
      | none => findRouteMain m pathname rs
    else findRouteMain m pathname rs

/-- Trailing-slash fallback loop of `_findRoute`
(`src/lieko-express.js:1432-1449`). -/
def findRouteFb (m clean : String) : List Route → Option FoundRoute
  | [] => none
  | r :: rs =>
    if methodMatches r m ∧ r.path = clean ∧ r.allowTrailingSlash then
      match patMatch r.pattern clean with
      | some caps => some ⟨r, caps, clean, true⟩
      | none => findRouteFb m clean rs
    else findRouteFb m clean rs

/-- Models `_findRoute(method, pathname)`
(`src/lieko-express.js:1422-1452`). -/
def findRoute (routes : List Route) (m pathname : String) : Option FoundRoute :=
  match findRouteMain m pathname routes with
  | some fr => some fr
  | none =>
    if endsWithSlash pathname ∧ pathname.data.length > 1 then
      findRouteFb m (dropLastS pathname) routes
    else none

/-! ## CORS negotiator (`_matchOrigin` / `_applyCors`,
`src/lieko-express.js:468-552`) -/

/-- Token compilation of a wildcard origin entry: the source escapes dots
and expands each `*` to `.*`, anchored at both ends.  (Origins containing
other regex metacharacters are outside the model.) -/
def wildOriginToks (cs : List Char) : List PatTok :=
  cs.map (fun c => if c = '*' then .wild else .lit c)

/-- Models `_matchOrigin(origin, allowedOrigin)` for a scalar allowed
origin (`src/lieko-express.js:468-487`). -/
def matchOriginStr (origin a : String) : Bool :=
  if origin = "" ∨ a = "" then false
  else if a = "*" then true
  else if hasChar a '*' then (mtch (wildOriginToks a.data) origin.data).isSome
  else origin = a

/-- Models `_matchOrigin` including the array case. -/
def matchOrigin (origin : String) (spec : Sum String (List String)) : Bool :=
  match spec with
  | .inl a => matchOriginStr origin a
  | .inr l => l.any (fun o => matchOriginStr origin o)

/-- The `finalOrigin` computation of `_applyCors`
(`src/lieko-express.js:509-518`): `"*"` verbatim; for arrays the first
matching entry or else the first element; for scalars the request origin
if it matches, else the configured origin. -/
def finalOrigin (requestOrigin : String) (spec : Sum String (List String)) : String :=
  match spec with
  | .inl a => if a = "*" then "*" else if matchOriginStr requestOrigin a then requestOrigin else a
  | .inr l =>
    match l.find? (fun o => matchOriginStr requestOrigin o) with
    | some m => m
    | none => l.headD "undefined"

/-- The JSON body of the strict-origin 403 short-circuit
(`src/lieko-express.js:501-505`). -/
def forbiddenBody (origin : String) : String :=
  "\x7b\"success\":false,\"error\":\"Origin Forbidden\",\"message\":\"Origin \\\"" ++
    origin ++ "\\\" is not allowed\"\x7d"

/-- Which branch of `_applyCors` terminated. -/
inductive CorsStep where
  | skipped
  | forbidden
  | applied (preflight : Bool)
deriving DecidableEq, Repr

def joinComma (l : List String) : String :=
  String.intercalate ", " l

/-- Models `_applyCors(req, res, opts)` (`src/lieko-express.js:489-552`)
for a non-null `opts` (the dispatcher model below only invokes it with a
resolved policy; the JS null guard shares the `enabled` early return).
`origin` is `req.headers.origin || ""`, `acrpn` is whether the request
carries `Access-Control-Request-Private-Network: true`. -/
def applyCors (origin method : String) (acrpn : Bool)
    (o : CorsOptions) (res : Res) : Res × CorsStep :=
    if ¬ o.enabled then (res, .skipped)
    else if o.strictOrigin ∧ origin ≠ "" ∧ matchOrigin origin o.origin = false then
      let res1 := { res with nodeStatus := 403 }
      (rawEnd res1 (forbiddenBody origin), .forbidden)
    else
      let fin := finalOrigin origin o.origin
      let res1 := setHeader res "Access-Control-Allow-Origin" fin
      let res2 := if o.credentials then setHeader res1 "Access-Control-Allow-Credentials" "true" else res1
      let res3 :=
        if o.exposedHeaders ≠ [] then
          setHeader res2 "Access-Control-Expose-Headers" (joinComma o.exposedHeaders)
        else res2
      let res4 :=
        if o.allowPrivateNetwork ∧ acrpn then
          setHeader res3 "Access-Control-Allow-Private-Network" "true"
        else res3
      if method = "OPTIONS" then
        let res5 := setHeader res4 "Access-Control-Allow-Methods" (joinComma o.methods)
        let res6 := setHeader res5 "Access-Control-Allow-Headers" (joinComma o.headers)
        let res7 := setHeader res6 "Access-Control-Max-Age" (toString o.maxAge)
        let res8 := { res7 with nodeStatus := 204 }
        (rawEnd res8 "", .applied true)
      else (res4, .applied false)

end Lieko

namespace Lieko

/-! ## Body ingestor (`_parseLimit` / `_parseBody`,
`src/lieko-express.js:633-828`) -/

/-- Case mapping of `String.prototype.toLowerCase` restricted to ASCII. -/
def toLowerS (s : String) : String :=
  String.mk (s.data.map Char.toLower)

def digitsToNat (cs : List Char) : Nat :=
  cs.foldl (fun n c => n * 10 + (c.toNat - '0'.toNat)) 0

/-- Unit multiplier of a limit string suffix (case-insensitive `kb`, `mb`,
`gb`; empty means bytes).  Any other suffix fails the regex. -/
def unitMult (cs : List Char) : Option Nat :=
  let l := toLowerS (String.mk cs)
  if l = "" then some 1
  else if l = "kb" then some 1024
  else if l = "mb" then some 1048576
  else if l = "gb" then some 1073741824
  else none

/-- Models `_parseLimit` on a string limit
(`src/lieko-express.js:636-649`): `^(\d+(\.\d+)?)(kb|mb|gb)?$`, value times
multiplier, defaulting to `1048576` when the regex fails.  The source
computes `parseFloat(value) * multiplier` as a JS number; the model floors
the product, which decides `size > limit` identically for every natural
`size`. -/
def parseLimitStr (s : String) : Nat :=
  let cs := s.data
  let d1 := cs.takeWhile Char.isDigit
  let r1 := cs.dropWhile Char.isDigit
  if d1.isEmpty then 1048576
  else
    match r1 with
    | '.' :: r2 =>
      let d2 := r2.takeWhile Char.isDigit
      let r3 := r2.dropWhile Char.isDigit
      if d2.isEmpty then 1048576
      else
        match unitMult r3 with
        | some m => digitsToNat d1 * m + digitsToNat d2 * m / 10 ^ d2.length
        | none => 1048576
    | _ =>
      match unitMult r1 with
      | some m => digitsToNat d1 * m
      | none => 1048576

def parseLimit : LimitSpec → Nat
  | .num n => n
  | .str s => parseLimitStr s

def limitStr : LimitSpec → String
  | .num n => toString n
  | .str s => s

/-- Whether `needle` occurs contiguously in `hay`. -/
def listInfix (needle : List Char) : List Char → Bool
  | [] => needle.isEmpty
  | h :: t => needle.isPrefixOf (h :: t) || listInfix needle t

/-- JS `ct.includes(needle)`. -/
def ctIncludes (ct needle : String) : Bool :=
  listInfix needle.data ct.data

/-- `detectLimit` (`src/lieko-express.js:673-683`). -/
def detectLimit (ct : String) (o : BodyOpts) : Nat :=
  if ctIncludes ct "application/json" then parseLimit o.json.limit
  else if ctIncludes ct "application/x-www-form-urlencoded" then parseLimit o.urlencoded.limit
  else if ctIncludes ct "multipart/form-data" then parseLimit o.multipart.limit
  else parseLimit (.str "1mb")

/-- The `limitLabel` used in the 413 message
(`src/lieko-express.js:686-690`). -/
def limitLabel (ct : String) (o : BodyOpts) : String :=
  if ctIncludes ct "application/json" then limitStr o.json.limit
  else if ctIncludes ct "application/x-www-form-urlencoded" then limitStr o.urlencoded.limit
  else if ctIncludes ct "multipart/form-data" then limitStr o.multipart.limit
  else "1mb"

def payloadErr (label : String) : JsError :=
  ⟨"Request body too large. Limit: " ++ label, some 413, some "PAYLOAD_TOO_LARGE"⟩

/-- Models the `data`-event loop of `_parseBody`
(`src/lieko-express.js:692-715`): running byte count checked against the
limit before the chunk is buffered; the moment the count exceeds the limit
all listeners are detached (no later chunk is examined) and the
payload-too-large error rejects the promise — the crossing chunk itself is
never buffered. -/
def streamLoop (limit : Nat) (label : String) :
    List String → Nat → String → Except JsError (String × Nat)
  | [], size, raw => .ok (raw, size)
  | c :: rest, size, raw =>
    if size + c.utf8ByteSize > limit then .error (payloadErr label)
    else streamLoop limit label rest (size + c.utf8ByteSize) (raw ++ c)

/-! ### JSON well-formedness

Models the success/failure behaviour of the built-in `JSON.parse`: a
recursive-descent recognizer for the JSON grammar.  Only whether parsing
succeeds is needed (the parsed value itself is kept abstract). -/

def isJsonWs (c : Char) : Bool :=
  c = ' ' ∨ c = '\t' ∨ c = '\n' ∨ c = '\r'

def skipWs (cs : List Char) : List Char :=
  cs.dropWhile isJsonWs

def isHexDigit (c : Char) : Bool :=
  c.isDigit ∨ ('a' ≤ c ∧ c ≤ 'f') ∨ ('A' ≤ c ∧ c ≤ 'F')

/-- Recognize the remainder of a JSON string literal (after the opening
quote), returning what follows the closing quote. -/
def pStrBody : List Char → Option (List Char)
  | [] => none
  | '"' :: rest => some rest
  | '\\' :: 'u' :: a :: b :: c :: d :: rest =>
    if isHexDigit a ∧ isHexDigit b ∧ isHexDigit c ∧ isHexDigit d then pStrBody rest else none
  | '\\' :: e :: rest =>
    if e = '"' ∨ e = '\\' ∨ e = '/' ∨ e = 'b' ∨ e = 'f' ∨ e = 'n' ∨ e = 'r' ∨ e = 't'
    then pStrBody rest else none
  | c :: rest => if c.toNat < 0x20 then none else pStrBody rest

def pExp (cs : List Char) : Option (List Char) :=
  match cs with
  | 'e' :: r | 'E' :: r =>
    let r1 := match r with
      | '+' :: r2 => r2
      | '-' :: r2 => r2
      | _ => r
    let d := r1.takeWhile Char.isDigit
    if d.isEmpty then none else some (r1.dropWhile Char.isDigit)
  | _ => some cs

def pFrac (cs : List Char) : Option (List Char) :=
  match cs with
  | '.' :: r =>
    let d := r.takeWhile Char.isDigit
    if d.isEmpty then none else pExp (r.dropWhile Char.isDigit)
  | _ => pExp cs

/-- Recognize a JSON number. -/
def pNum (cs : List Char) : Option (List Char) :=
  let cs1 := match cs with
    | '-' :: r => r
    | _ => cs
  match cs1 with
  | '0' :: r => pFrac r
  | c :: r => if c.isDigit then pFrac (r.dropWhile Char.isDigit) else none
  | [] => none

mutual

def pVal : Nat → List Char → Option (List Char)
  | 0, _ => none
  | fuel + 1, cs0 =>
    match skipWs cs0 with
    | '{' :: rest => pObj fuel rest
    | '[' :: rest => pArr fuel rest
    | '"' :: rest => pStrBody rest
    | cs =>
      if "null".data.isPrefixOf cs then some (cs.drop 4)
      else if "true".data.isPrefixOf cs then some (cs.drop 4)
      else if "false".data.isPrefixOf cs then some (cs.drop 5)
      else pNum cs

def pArr : Nat → List Char → Option (List Char)
  | 0, _ => none
  | fuel + 1, cs =>
    match skipWs cs with
    | ']' :: rest => some rest
    | cs1 => pArrElems fuel cs1

def pArrElems : Nat → List Char → Option (List Char)
  | 0, _ => none
  | fuel + 1, cs =>
    match pVal fuel cs with
    | none => none
    | some rest =>
      match skipWs rest with
      | ',' :: r2 => pArrElems fuel r2
      | ']' :: r2 => some r2
      | _ => none

def pObj : Nat → List Char → Option (List Char)
  | 0, _ => none
  | fuel + 1, cs =>
    match skipWs cs with
    | '}' :: rest => some rest
    | cs1 => pObjElems fuel cs1

def pObjElems : Nat → List Char → Option (List Char)
  | 0, _ => none
  | fuel + 1, cs =>
    match skipWs cs with
    | '"' :: r1 =>
      match pStrBody r1 with
      | none => none
      | some r2 =>
        match skipWs r2 with
        | ':' :: r3 =>
          match pVal fuel r3 with
          | none => none
          | some r4 =>
            match skipWs r4 with
            | ',' :: r5 => pObjElems fuel r5
            | '}' :: r5 => some r5
            | _ => none
        | _ => none
    | _ => none

end

/-- Whether `JSON.parse` succeeds on `s`.  The fuel `4 * length + 4`
over-approximates the recursion depth (every recursive step consumes at
least one character for every three fuel units spent). -/
def jsonWf (s : String) : Bool :=
  match pVal (4 * s.data.length + 4) s.data with
  | some rest => (skipWs rest).isEmpty
  | none => false

/-! ### Decoded bodies

`req.body` after `_parseBody`.  The decoded JSON / urlencoded / multipart
values are kept abstract (tagged with the raw text they were decoded
from); the claims below only distinguish the branch taken and the
empty-object fallback.  The numeric/boolean coercion sweep over top-level
string fields (`src/lieko-express.js:807-817`) operates inside those
abstracted values and is therefore not modelled further. -/

inductive JsBody where
  | emptyObj
  | jsonOf (text : String)
  | urlenc (text : String) (extended : Bool)
  | multipart (text : String) (boundary : String)
  | textObj (text : String)
deriving DecidableEq, Repr

structure ParsedBody where
  body : JsBody
  bodySize : Nat
deriving DecidableEq, Repr

deriving instance DecidableEq for Except

def trimS (s : String) : String :=
  String.mk (trimChars s.data)

/-- `['[', '{'].includes(text.trim()[0])`. -/
def startsBracket (s : String) : Bool :=
  s.data.head? = some '[' ∨ s.data.head? = some '\x7b'

def strictModeErr : JsError :=
  ⟨"Strict mode: body must be an object or array", none, none⟩

/-- Rest of the list after the first occurrence of `needle`. -/
def afterInfix (needle : List Char) : List Char → Option (List Char)
  | [] => if needle.isEmpty then some [] else none
  | h :: t =>
    if needle.isPrefixOf (h :: t) then some ((h :: t).drop needle.length)
    else afterInfix needle t

/-- `contentType.match(/boundary=([^;]+)/)`: text after the first
`boundary=` up to a `;`, requiring at least one character. -/
def boundaryOf (ct : String) : Option String :=
  match afterInfix "boundary=".data ct.data with
  | none => none
  | some tail =>
    let b := tail.takeWhile (· ≠ ';')
    if b.isEmpty then none else some (String.mk b)

/-- The `end`-event decode step of `_parseBody`
(`src/lieko-express.js:717-824`) on the complete within-limit raw text:
JSON parse errors degrade to `\x7b\x7d` (the strict-mode check runs only
after a successful parse); urlencoded and multipart decoding are kept
abstract except for the missing-boundary rejection; unknown content types
become `\x7btext\x7d` when nonempty. -/
def finishBody (ct : String) (opts : BodyOpts) (raw : String) (size : Nat) :
    Except JsError ParsedBody :=
  if ctIncludes ct "application/json" then
    if jsonWf raw then
      if opts.json.strict ∧ trimS raw ≠ "" ∧ startsBracket (trimS raw) = false then
        .error strictModeErr
      else .ok ⟨.jsonOf raw, size⟩
    else .ok ⟨.emptyObj, size⟩
  else if ctIncludes ct "application/x-www-form-urlencoded" then
    .ok ⟨.urlenc raw opts.urlencoded.extended, size⟩
  else if ctIncludes ct "multipart/form-data" then
    match boundaryOf ct with
    | none => .error ⟨"Missing multipart boundary", none, none⟩
    | some b => .ok ⟨.multipart raw b, size⟩
  else .ok ⟨(if raw = "" then .emptyObj else .textObj raw), size⟩

/-- Models `_parseBody(req, routeOptions)`
(`src/lieko-express.js:652-828`): `GET`/`DELETE`/`HEAD` resolve with an
empty body without reading the stream; otherwise the chunks stream through
the size-checked loop and the complete raw text is decoded by content
type.  `ct0` is the raw `content-type` header, `chunks` the byte stream
(chunk sizes are UTF-8 byte counts). -/
def parseBody (method ct0 : String) (chunks : List String) (opts : BodyOpts) :
    Except JsError ParsedBody :=
  if method = "GET" ∨ method = "DELETE" ∨ method = "HEAD" then .ok ⟨.emptyObj, 0⟩
  else
    match streamLoop (detectLimit (toLowerS ct0) opts) (limitLabel (toLowerS ct0) opts)
        chunks 0 "" with
    | .error e => .error e
    | .ok (raw, size) => finishBody (toLowerS ct0) opts raw size

end Lieko

namespace Lieko

/-! ## Error-Handler Chain (`_runErrorHandlers`,
`src/lieko-express.js:1454-1494`) -/

/-- How the inner `runNext` recursion ends: the chain ran to completion
(every invoked handler passed control on with no error, or the list was
exhausted), some handler rejected (it threw, or called its continuation
WITH an error — `reject(nextErr)` in the source), or a handler never
called its continuation so the awaited promise stays pending. -/
inductive ChainRes where
  | completed
  | rejected (e : JsError)
  | stalled
deriving Repr

/-- The `runNext` recursion: each handler receives the ORIGINAL error and
a continuation; calling the continuation with no argument resolves into
`runNext()` — i.e. runs the NEXT handler — while calling it with an error
rejects the whole chain. -/
def chainRun (err : JsError) : List ErrH → Res → Res × ChainRes
  | [], res => (res, .completed)
  | h :: rest, res =>
    match h err res with
    | (res1, .noCall) => (res1, .stalled)
    | (res1, .throwE e) => (res1, .rejected e)
    | (res1, .callNext none) => chainRun err rest res1
    | (res1, .callNext (some e)) => (res1, .rejected e)

def envelope500 (msg : String) : String :=
  "\x7b\"success\":false,\"error\":\"Internal Server Error\",\"message\":\"" ++ msg ++ "\"\x7d"

/-- How `_runErrorHandlers` itself completes: normally, stalled on a
pending continuation, or by rethrowing (the final `res.json` can itself
raise when the head was already sent). -/
inductive EhOut where
  | ok
  | stalled
  | threw (e : JsError)
deriving Repr

def headersSentErr : JsError :=
  ⟨"ERR_HTTP_HEADERS_SENT", none, none⟩

/-- The catch branch of `_runErrorHandlers`
(`src/lieko-express.js:1485-1493`): a rejected chain is answered with a
default 500 envelope built from the REJECTING error. -/
def metaRespond (res : Res) (e : JsError) : Res × EhOut :=
  let (res1, t) := resJson (resStatus res 500) (envelope500 e.message)
  (res1, if t then .threw headersSentErr else .ok)

/-- Models `_runErrorHandlers(err, req, res)`
(`src/lieko-express.js:1454-1494`): an empty handler list is answered with
a default 500 envelope from the original error; otherwise the chain runs
and a rejection is converted into a meta-failure 500. -/
def runErrorHandlers (handlers : List ErrH) (err : JsError) (res : Res) : Res × EhOut :=
  if handlers.isEmpty then
    let (res1, t) := resJson (resStatus res 500) (envelope500 err.message)
    (res1, if t then .threw headersSentErr else .ok)
  else
    match chainRun err handlers res with
    | (res1, .completed) => (res1, .ok)
    | (res1, .stalled) => (res1, .stalled)
    | (res1, .rejected e) => metaRespond res1 e

/-! ## Dispatch pipeline (`_handleRequest`,
`src/lieko-express.js:1592-1741`) -/

/-- Trace events emitted by the pipeline model.  The middleware / handler
events record the value of `res.headersSent` observed when the stage was
entered; `errorChainRun` records the flag at the moment
`_runErrorHandlers` was invoked (not every call site guards it). -/
inductive Ev where
  | corsRun (step : CorsStep)
  | bodyParseRun
  | resp413
  | globalMwRun (i : Nat) (hsAtEntry : Bool)
  | routeMwRun (i : Nat) (hsAtEntry : Bool)
  | handlerRun (hsAtEntry : Bool)
  | errorChainRun (hsAtEntry : Bool)
  | notFoundRun
deriving DecidableEq, Repr

/-- Overall fate of one `_handleRequest` invocation: normal completion, a
pipeline hang (an awaited continuation is never resolved), or an exception
escaping `_handleRequest` itself. -/
inductive Outcome where
  | done
  | hang
  | escaped (e : JsError)
deriving Repr

/-- How one middleware-walk loop ends: an early `return` on
`res.headersSent`, normal fall-through, an exception propagating to the
dispatch `catch`, or a hang. -/
inductive LoopExit where
  | retEarly
  | normal
  | thrownE (e : JsError)
  | hang
deriving Repr

structure App where
  corsOptions : CorsOptions
  routes : List Route
  middlewares : List MwEntry
  errorHandlers : List ErrH
  notFoundHandler : Option Handler
  bodyParserOptions : BodyOpts

structure Req where
  method : String
  url : String
  origin : String := ""
  contentType : String := ""
  chunks : List String := []
  acrpn : Bool := false

/-- The global-middleware walk (`src/lieko-express.js:1663-1700`): before
every entry `res.headersSent` is checked (a set flag returns from the
dispatcher); a prefix-filtered entry runs only when the request url starts
with its path.  Completion via `next(err)` runs the error chain and then
CONTINUES the walk; a rejected returned promise aborts to the dispatch
catch; a stalled error chain (or one that itself throws inside `next`)
leaves the awaited promise pending. -/
def runGlobalMws (eh : List ErrH) (url : String) :
    List MwEntry → Nat → Res → Res × List Ev × LoopExit
  | [], _, res => (res, [], .normal)
  | mw :: rest, i, res =>
    if res.headersSent then (res, [], .retEarly)
    else
      let shouldExecute :=
        match mw.mwPath with
        | none => true
        | some p => p.data.isPrefixOf url.data
      if shouldExecute = false then runGlobalMws eh url rest (i + 1) res
      else
        let (res1, act) := mw.handler res
        let ev0 := Ev.globalMwRun i res.headersSent
        match act with
        | .next none =>
          let (res2, evs, ex) := runGlobalMws eh url rest (i + 1) res1
          (res2, ev0 :: evs, ex)
        | .next (some e) =>
          let (res2, out) := runErrorHandlers eh e res1
          let evE := Ev.errorChainRun res1.headersSent
          match out with
          | .ok =>
            let (res3, evs, ex) := runGlobalMws eh url rest (i + 1) res2
            (res3, ev0 :: evE :: evs, ex)
          | .stalled => (res2, [ev0, evE], .hang)
          | .threw _ => (res2, [ev0, evE], .hang)
        | .pResolve =>
          let (res2, evs, ex) := runGlobalMws eh url rest (i + 1) res1
          (res2, ev0 :: evs, ex)
        | .pReject e => (res1, [ev0], .thrownE e)

/-- The route-middleware walk (`src/lieko-express.js:1711-1728`): same
contract without the prefix filter. -/
def runRouteMws (eh : List ErrH) :
    List Mw → Nat → Res → Res × List Ev × LoopExit
  | [], _, res => (res, [], .normal)
  | mw :: rest, i, res =>
    if res.headersSent then (res, [], .retEarly)
    else
      let (res1, act) := mw res
      let ev0 := Ev.routeMwRun i res.headersSent
      match act with
      | .next none =>
        let (res2, evs, ex) := runRouteMws eh rest (i + 1) res1
        (res2, ev0 :: evs, ex)
      | .next (some e) =>
        let (res2, out) := runErrorHandlers eh e res1
        let evE := Ev.errorChainRun res1.headersSent
        match out with
        | .ok =>
          let (res3, evs, ex) := runRouteMws eh rest (i + 1) res2
          (res3, ev0 :: evE :: evs, ex)
        | .stalled => (res2, [ev0, evE], .hang)
        | .threw _ => (res2, [ev0, evE], .hang)
      | .pResolve =>
        let (res2, evs, ex) := runRouteMws eh rest (i + 1) res1
        (res2, ev0 :: evs, ex)
      | .pReject e => (res1, [ev0], .thrownE e)

/-- The dispatch `catch` block (`src/lieko-express.js:1734-1740`): the
error chain runs only when the head is not yet sent; otherwise the error
is merely logged. -/
def outerCatch (app : App) (e : JsError) (res : Res) (evs : List Ev) :
    Res × List Ev × Outcome :=
  if res.headersSent then (res, evs, .done)
  else
    match runErrorHandlers app.errorHandlers e res with
    | (res1, .ok) => (res1, evs ++ [Ev.errorChainRun res.headersSent], .done)
    | (res1, .stalled) => (res1, evs ++ [Ev.errorChainRun res.headersSent], .hang)
    | (res1, .threw e1) => (res1, evs ++ [Ev.errorChainRun res.headersSent], .escaped e1)

def payload413Body (msg : String) : String :=
  "\x7b\"success\":false,\"error\":\"Payload Too Large\",\"message\":\"" ++ msg ++ "\"\x7d"

def notFoundBody : String :=
  "\x7b\"error\":\"Route not found\"\x7d"

/-- The `catch` around `await this._parseBody(...)`
(`src/lieko-express.js:1652-1661`): a `PAYLOAD_TOO_LARGE` error is
answered locally with a 413 JSON response; every other body error is
handed to the error chain WITHOUT a headers-sent guard. -/
def parseErrorPhase (app : App) (e : JsError) (res : Res) (evs : List Ev) :
    Res × List Ev × Outcome :=
  if e.code = some "PAYLOAD_TOO_LARGE" then
    match resJson (resStatus res 413) (payload413Body e.message) with
    | (res1, true) => outerCatch app headersSentErr res1 (evs ++ [Ev.resp413])
    | (res1, false) => (res1, evs ++ [Ev.resp413], .done)
  else
    match runErrorHandlers app.errorHandlers e res with
    | (res1, .ok) => (res1, evs ++ [Ev.errorChainRun res.headersSent], .done)
    | (res1, .stalled) => (res1, evs ++ [Ev.errorChainRun res.headersSent], .hang)
    | (res1, .threw e1) => outerCatch app e1 res1 (evs ++ [Ev.errorChainRun res.headersSent])

/-- Route lookup outcome and handler invocation
(`src/lieko-express.js:1702-1732`). -/
def handlerPhase (app : App) (fr : FoundRoute) (res1 : Res) (evs1 : List Ev) :
    Res × List Ev × Outcome :=
  if res1.headersSent then (res1, evs1, .done)
  else
    match fr.route.handler res1 with
    | (res2, some e) => outerCatch app e res2 (evs1 ++ [Ev.handlerRun res1.headersSent])
    | (res2, none) => (res2, evs1 ++ [Ev.handlerRun res1.headersSent], .done)

def routePhase (app : App) (fr : FoundRoute) (res : Res) (evs : List Ev) :
    Res × List Ev × Outcome :=
  match runRouteMws app.errorHandlers fr.route.middlewares 0 res with
  | (res1, rEvs, .retEarly) => (res1, evs ++ rEvs, .done)
  | (res1, rEvs, .hang) => (res1, evs ++ rEvs, .hang)
  | (res1, rEvs, .thrownE e) => outerCatch app e res1 (evs ++ rEvs)
  | (res1, rEvs, .normal) => handlerPhase app fr res1 (evs ++ rEvs)

/-- The 404 path (`src/lieko-express.js:1704-1707`). -/
def notFoundPhase (app : App) (res : Res) (evs : List Ev) :
    Res × List Ev × Outcome :=
  match app.notFoundHandler with
  | some nf =>
    match nf res with
    | (res1, some e) => outerCatch app e res1 (evs ++ [Ev.notFoundRun])
    | (res1, none) => (res1, evs ++ [Ev.notFoundRun], .done)
  | none =>
    match resJson (resStatus res 404) notFoundBody with
    | (res1, true) => outerCatch app headersSentErr res1 evs
    | (res1, false) => (res1, evs, .done)

/-- Everything after a successful body parse
(`src/lieko-express.js:1663-1732`). -/
def lookupPhase (app : App) (route : Option FoundRoute) (res1 : Res) (evs1 : List Ev) :
    Res × List Ev × Outcome :=
  if res1.headersSent then (res1, evs1, .done)
  else
    match route with
    | none => notFoundPhase app res1 evs1
    | some fr => routePhase app fr res1 evs1

def afterParse (app : App) (url : String) (route : Option FoundRoute)
    (res : Res) (evs : List Ev) : Res × List Ev × Outcome :=
  match runGlobalMws app.errorHandlers url app.middlewares 0 res with
  | (res1, mwEvs, .retEarly) => (res1, evs ++ mwEvs, .done)
  | (res1, mwEvs, .hang) => (res1, evs ++ mwEvs, .hang)
  | (res1, mwEvs, .thrownE e) => outerCatch app e res1 (evs ++ mwEvs)
  | (res1, mwEvs, .normal) => lookupPhase app route res1 (evs ++ mwEvs)

/-- The CORS options the dispatcher resolves for a (possibly found) route
(`src/lieko-express.js:1628-1648`): a route-level `cors: false` skips CORS,
a route-level policy is merged over the app policy with `enabled` forced
on (full-override model of the object spread), and otherwise the app
policy applies when enabled. -/
def effCors (app : App) (route : Option FoundRoute) : Option CorsOptions :=
  match route with
  | some fr =>
    match fr.route.cors with
    | .off => none
    | .set o => some { o with enabled := true }
    | .unset => if app.corsOptions.enabled then some app.corsOptions else none
  | none => if app.corsOptions.enabled then some app.corsOptions else none

def effBodyOpts (app : App) (route : Option FoundRoute) : BodyOpts :=
  (route.bind (fun fr => fr.route.bodyParserOptions)).getD app.bodyParserOptions

def pathOf (url : String) : String :=
  String.mk (url.data.takeWhile (· ≠ '?'))

/-- The body-parse stage and everything after it
(`src/lieko-express.js:1650-1732`). -/
def afterCors (app : App) (req : Req) (route : Option FoundRoute)
    (res : Res) (evs : List Ev) : Res × List Ev × Outcome :=
  match parseBody req.method req.contentType req.chunks (effBodyOpts app route) with
  | .error e => parseErrorPhase app e res (evs ++ [Ev.bodyParseRun])
  | .ok _ => afterParse app req.url route res (evs ++ [Ev.bodyParseRun])

/-- Models the control flow of `_handleRequest(req, res)`
(`src/lieko-express.js:1592-1741`) on a fresh response: the
`OPTIONS`-preflight short-circuit, CORS resolution (which for non-OPTIONS
requests falls through even after writing a 403), body parsing, the two
middleware walks, route lookup, handler invocation, and the error paths.
The request-enhancement step contributes the coerced query (see
`coercedQueryOf` below); middleware are modelled as opaque `Res`
transformers, so the temporary `req.url` prefix-stripping has no further
observable effect here. -/
def corsPhase (app : App) (req : Req) : Res × List Ev :=
  match effCors app (findRoute app.routes req.method (pathOf req.url)) with
  | none => (initRes, [])
  | some o =>
    match applyCors req.origin req.method req.acrpn o initRes with
    | (r, step) => (r, [Ev.corsRun step])

def dispatch (app : App) (req : Req) : Res × List Ev × Outcome :=
  if req.method = "OPTIONS" ∧ app.corsOptions.enabled then
    match applyCors req.origin req.method req.acrpn app.corsOptions initRes with
    | (res1, step) => (res1, [Ev.corsRun step], .done)
  else
    if (effCors app (findRoute app.routes req.method (pathOf req.url))).isSome
        ∧ req.method = "OPTIONS" then
      ((corsPhase app req).1, ((corsPhase app req).2, .done))
    else
      afterCors app req (findRoute app.routes req.method (pathOf req.url))
        (corsPhase app req).1 (corsPhase app req).2

end Lieko

namespace Lieko

/-! ## Query-string parsing and coercion
(`src/lieko-express.js:1595-1613`) -/

/-- A coerced query value: JS boolean, the integer value `parseInt`
returns on a `^\d+$` string, the float a `^\d+\.\d+$` string parses to
(kept as its literal text), or the untouched string. -/
inductive QVal where
  | b (v : Bool)
  | i (n : Nat)
  | f (text : String)
  | s (v : String)
deriving DecidableEq, Repr

/-- `/^\d+$/`. -/
def isIntStr (s : String) : Bool :=
  !s.data.isEmpty && s.data.all Char.isDigit

/-- `/^\d+\.\d+$/`. -/
def isDecStr (s : String) : Bool :=
  let d1 := s.data.takeWhile Char.isDigit
  let r1 := s.data.dropWhile Char.isDigit
  !d1.isEmpty &&
    match r1 with
    | '.' :: r2 => !r2.isEmpty && r2.all Char.isDigit
    | _ => false

/-- The per-value coercion loop over `req.query`
(`src/lieko-express.js:1607-1613`). -/
def coerceQ (v : String) : QVal :=
  if v = "true" then .b true
  else if v = "false" then .b false
  else if isIntStr v then .i (digitsToNat v.data)
  else if isDecStr v then .f v
  else .s v

/-- Models the `URLSearchParams` decode of one component for inputs
without percent-escapes: `+` becomes a space. -/
def decodeC (s : String) : String :=
  String.mk (s.data.map (fun c => if c = '+' then ' ' else c))

/-- Split a character list on a separator character. -/
def splitListOn (sep : Char) : List Char → List (List Char)
  | [] => [[]]
  | c :: rest =>
    let r := splitListOn sep rest
    if c = sep then [] :: r
    else
      match r with
      | [] => [[c]]
      | h :: t => (c :: h) :: t

/-- Models iteration over `new URLSearchParams(qs)`: split on `&`, skip
empty segments, split each segment at its first `=` (a missing `=` yields
an empty value). -/
def splitPairsRaw (qs : String) : List (String × String) :=
  (splitListOn '&' qs.data).filterMap (fun seg =>
    if seg.isEmpty then none
    else
      let k := seg.takeWhile (· ≠ '=')
      let v := match seg.dropWhile (· ≠ '=') with
        | [] => []
        | _ :: t => t
      some (decodeC (String.mk k), decodeC (String.mk v)))

/-- `query[key] = value` accumulation: later occurrences of a key
overwrite the earlier value in place. -/
def buildObj (pairs : List (String × String)) : List (String × String) :=
  pairs.foldl (fun acc kv => upsert acc kv.1 kv.2) []

/-- `url.substring(qIndex + 1)`: the raw query string (empty when the url
has no `?`). -/
def queryStringOf (url : String) : String :=
  match url.data.dropWhile (· ≠ '?') with
  | [] => ""
  | _ :: rest => String.mk rest

/-- The string-valued `req.query` (`src/lieko-express.js:1599-1604`). -/
def queryOf (url : String) : List (String × String) :=
  buildObj (splitPairsRaw (queryStringOf url))

/-- `req.query` after the enhancement-time coercion sweep
(`src/lieko-express.js:1607-1613`). -/
def coercedQueryOf (url : String) : List (String × QVal) :=
  (queryOf url).map (fun kv => (kv.1, coerceQ kv.2))

/-- Result of one modelled `_handleRequest` call: final response state,
the stage trace, the request fate, and the coerced query computed during
request enhancement. -/
structure HRes where
  res : Res
  events : List Ev
  outcome : Outcome
  query : List (String × QVal)

/-- Models `_handleRequest` (`src/lieko-express.js:1592-1741`). -/
def handleRequest (app : App) (req : Req) : HRes :=
  match dispatch app req with
  | (res, evs, oc) => ⟨res, evs, oc, coercedQueryOf req.url⟩

/-! ## Registration-time `get` overloading (`get` / `_addRoute`,
`src/lieko-express.js:830-837` and `1349-1352`) -/

/-- One positional argument of a `get(...)` call: a string, a function, or
an array of path strings. -/
inductive Arg where
  | str (s : String)
  | fn (h : Handler)
  | arr (l : List String)

/-- A route registration record as `_addRoute` stores it, with the
argument split into route middlewares and the final handler. -/
structure RegRoute where
  method : String
  path : String
  handlerArg : Arg
  middlewareArgs : List Arg

/-- Models `_addRoute(method, path, ...handlers)`
(`src/lieko-express.js:1349-1392`) on a fresh registry: with no handler
arguments (including a call with no arguments at all) it throws
`'Route handler is required'` immediately; otherwise one route per path is
registered (a non-array path registers one route; the model renders a
function in path position as an opaque string). -/
def addRouteModel (method : String) (args : List Arg) : Except String (List RegRoute) :=
  match args with
  | [] => .error "Route handler is required"
  | path :: handlers =>
    if handlers.isEmpty then .error "Route handler is required"
    else
      let fin := handlers.getLastD (Arg.str "")
      let mws := handlers.dropLast
      let paths :=
        match path with
        | .arr l => l
        | .str s => [s]
        | .fn _ => ["function"]
      .ok (paths.map (fun p =>
        ⟨method, normalizePath p, fin, mws⟩))

/-- Result of a `get(...)` call: a settings read or a delegation to GET
route registration. -/
inductive GetResult where
  | settingLookup (v : Option String)
  | routed (r : Except String (List RegRoute))

def headIsSlash (s : String) : Bool :=
  s.data.head? = some '/'

/-- Models the `get(...args)` overload (`src/lieko-express.js:830-837`):
exactly one string argument that does not start with `/` reads the
settings store; every other shape delegates to `_addRoute('GET', ...)`. -/
def getModel (settings : List (String × String)) (args : List Arg) : GetResult :=
  match args with
  | [Arg.str s] =>
    if headIsSlash s = false then .settingLookup (settings.lookup s)
    else .routed (addRouteModel "GET" args)
  | _ => .routed (addRouteModel "GET" args)

end Lieko

namespace Lieko

/-! ## General lemmas -/

theorem lookup_upsert_self (l : List (String × String)) (k v : String) :
    (upsert l k v).lookup k = some v := by
  induction l with
  | nil => simp [upsert, List.lookup]
  | cons a t ih =>
    obtain ⟨a1, a2⟩ := a
    by_cases h : a1 = k
    · simp [upsert, h, List.lookup]
    · have hb : (k == a1) = false := by
        simp [beq_iff_eq]
        intro hk
        exact h hk.symm
      simp [upsert, h, List.lookup, hb, ih]

theorem lookup_upsert_ne (l : List (String × String)) (k1 v k : String) (h : k1 ≠ k) :
    (upsert l k1 v).lookup k = l.lookup k := by
  have hb : (k == k1) = false := by
    simp [beq_iff_eq]
    intro hk
    exact h hk.symm
  induction l with
  | nil => simp [upsert, List.lookup, hb]
  | cons a t ih =>
    obtain ⟨a1, a2⟩ := a
    by_cases h1 : a1 = k1
    · subst h1
      simp [upsert, List.lookup, hb]
    · simp [upsert, h1, List.lookup, ih]

theorem lookup_map_val (l : List (String × String)) (k : String) (f : String → QVal) :
    ((l.map (fun kv => (kv.1, f kv.2))).lookup k) = (l.lookup k).map f := by
  induction l with
  | nil => simp [List.lookup]
  | cons a t ih =>
    obtain ⟨a1, a2⟩ := a
    by_cases h : k = a1
    · simp [List.lookup, h]
    · have hb : (k == a1) = false := by simpa [beq_iff_eq] using h
      simp [List.lookup, hb, ih]

theorem findRouteMain_mem : ∀ (routes : List Route) (m p : String) (fr : FoundRoute),
    findRouteMain m p routes = some fr → fr.route ∈ routes := by
  intro routes m p fr
  induction routes with
  | nil => intro h; simp [findRouteMain] at h
  | cons r rs ih =>
    intro h
    unfold findRouteMain at h
    by_cases hm : methodMatches r m
    · rw [if_pos hm] at h
      cases hp : patMatch r.pattern p with
      | some caps =>
        rw [hp] at h
        cases h
        exact List.mem_cons_self r rs
      | none =>
        rw [hp] at h
        exact List.mem_cons_of_mem r (ih h)
    · rw [if_neg hm] at h
      exact List.mem_cons_of_mem r (ih h)

theorem findRouteFb_mem : ∀ (routes : List Route) (m clean : String) (fr : FoundRoute),
    findRouteFb m clean routes = some fr → fr.route ∈ routes := by
  intro routes m clean fr
  induction routes with
  | nil => intro h; simp [findRouteFb] at h
  | cons r rs ih =>
    intro h
    unfold findRouteFb at h
    by_cases hc : methodMatches r m ∧ r.path = clean ∧ r.allowTrailingSlash
    · rw [if_pos hc] at h
      cases hp : patMatch r.pattern clean with
      | some caps =>
        rw [hp] at h
        cases h
        exact List.mem_cons_self r rs
      | none =>
        rw [hp] at h
        exact List.mem_cons_of_mem r (ih h)
    · rw [if_neg hc] at h
      exact List.mem_cons_of_mem r (ih h)

theorem findRoute_mem (routes : List Route) (m p : String) (fr : FoundRoute)
    (h : findRoute routes m p = some fr) : fr.route ∈ routes := by
  unfold findRoute at h
  cases hm : findRouteMain m p routes with
  | some fr1 =>
    rw [hm] at h
    cases h
    exact findRouteMain_mem routes m p fr hm
  | none =>
    rw [hm] at h
    by_cases hc : endsWithSlash p ∧ p.data.length > 1
    · rw [if_pos hc] at h
      exact findRouteFb_mem routes m (dropLastS p) fr h
    · rw [if_neg hc] at h
      cases h

end Lieko

namespace Lieko

/-! ## C1: error-handler chain ordering -/

def ehPass : ErrH := fun _ r => (r, .callNext none)

def ehRecord : ErrH := fun e r => (setHeader r "x-second-ran" e.message, .callNext none)

def ehEscalate : ErrH := fun _ r => (r, .callNext (some ⟨"esc", none, none⟩))

/-- C1, counterexample.  The claim says that with two error handlers, a
first handler calling its continuation with NO error prevents the second
from running, while calling it WITH an error runs the second with that
error.  The code does the opposite on both branches: with
`[ehPass, ehRecord]` (first calls `next()`), the second handler runs — it
records the error message it received in a header; with
`[ehEscalate, ehRecord]` (first calls `next(err)`), the second never runs
and a default 500 meta-failure response is produced instead. -/
theorem ce_C1 :
    ((runErrorHandlers [ehPass, ehRecord] ⟨"boom", none, none⟩ initRes).1.headers.lookup
        "x-second-ran") = some "boom"
    ∧ ((runErrorHandlers [ehEscalate, ehRecord] ⟨"boom", none, none⟩ initRes).1.headers.lookup
        "x-second-ran") = none
    ∧ (runErrorHandlers [ehEscalate, ehRecord] ⟨"boom", none, none⟩ initRes).1.sentStatus
        = some 500 := by
  refine ⟨?_, ?_, ?_⟩ <;> decide

/-- C1 (amended): in `_runErrorHandlers`, when a handler invokes its
continuation with no error the NEXT handler runs and receives the
ORIGINAL error (the chain `chainRun err` passes `err` unchanged to the
remaining handlers); when it invokes the continuation with an error the
remaining handlers never run — the chain rejects and a default 500
meta-failure JSON response built from that error is sent (the result does
not depend on the remaining handlers at all). -/
theorem thm_C1_amended :
    (∀ (h1 : ErrH) (rest : List ErrH) (err : JsError) (res res1 : Res),
      h1 err res = (res1, .callNext none) →
      chainRun err (h1 :: rest) res = chainRun err rest res1)
    ∧ (∀ (h1 : ErrH) (rest : List ErrH) (err e : JsError) (res res1 : Res),
      h1 err res = (res1, .callNext (some e)) →
      runErrorHandlers (h1 :: rest) err res = metaRespond res1 e) := by
  constructor
  · intro h1 rest err res res1 h
    simp [chainRun, h]
  · intro h1 rest err e res res1 h
    simp [runErrorHandlers, chainRun, h]

theorem thm_C1_amended_witness :
    chainRun ⟨"boom", none, none⟩ [ehPass, ehRecord] initRes
        = chainRun ⟨"boom", none, none⟩ [ehRecord] initRes
    ∧ runErrorHandlers [ehEscalate, ehRecord] ⟨"boom", none, none⟩ initRes
        = metaRespond initRes ⟨"esc", none, none⟩ :=
  ⟨thm_C1_amended.1 ehPass [ehRecord] ⟨"boom", none, none⟩ initRes initRes rfl,
   thm_C1_amended.2 ehEscalate [ehRecord] ⟨"boom", none, none⟩ ⟨"esc", none, none⟩
     initRes initRes rfl⟩

end Lieko

namespace Lieko

/-! ## C9: empty Origin skips the strict check -/

theorem rawEnd_headers (res : Res) (b : String) : (rawEnd res b).headers = res.headers := by
  unfold rawEnd
  split <;> rfl

/-- C9: with CORS enabled and an absent/empty `Origin` header, `_applyCors`
never takes the strict-origin 403 branch — the whole computation is
identical to the one with `strictOrigin` off — and the resolved
`Access-Control-Allow-Origin` header is set on the response. -/
theorem thm_C9 (o : CorsOptions) (he : o.enabled = true) (method : String)
    (acrpn : Bool) (res : Res) :
    (applyCors "" method acrpn o res).2 ≠ CorsStep.forbidden
    ∧ applyCors "" method acrpn o res
        = applyCors "" method acrpn { o with strictOrigin := false } res
    ∧ ((applyCors "" method acrpn o res).1.headers.lookup
        "Access-Control-Allow-Origin") = some (finalOrigin "" o.origin) := by
  have hcond : ¬ (o.strictOrigin ∧ ("" : String) ≠ "" ∧ matchOrigin "" o.origin = false) := by
    rintro ⟨-, h2, -⟩
    exact h2 rfl
  have hcond2 : ¬ (({ o with strictOrigin := false } : CorsOptions).strictOrigin
      ∧ ("" : String) ≠ "" ∧ matchOrigin "" ({ o with strictOrigin := false } :
        CorsOptions).origin = false) := by
    rintro ⟨-, h2, -⟩
    exact h2 rfl
  have hen : ¬ ¬ (o.enabled = true) := not_not_intro he
  have hen2 : ¬ ¬ (({ o with strictOrigin := false } : CorsOptions).enabled = true) :=
    not_not_intro he
  refine ⟨?_, ?_, ?_⟩
  · show (applyCors "" method acrpn o res).2 ≠ CorsStep.forbidden
    unfold applyCors
    rw [if_neg hen, if_neg hcond]
    by_cases hm : method = "OPTIONS"
    · rw [if_pos hm]
      simp
    · rw [if_neg hm]
      simp
  · unfold applyCors
    rw [if_neg hen, if_neg hcond, if_neg hen2, if_neg hcond2]
  · unfold applyCors
    rw [if_neg hen, if_neg hcond]
    split_ifs <;>
      simp [rawEnd_headers, setHeader, lookup_upsert_self, lookup_upsert_ne]

def o9 : CorsOptions :=
  { enabled := true, strictOrigin := true, origin := .inl "https://a.com" }

theorem thm_C9_witness :
    (applyCors "" "GET" false o9 initRes).2 ≠ CorsStep.forbidden
    ∧ applyCors "" "GET" false o9 initRes
        = applyCors "" "GET" false { o9 with strictOrigin := false } initRes
    ∧ ((applyCors "" "GET" false o9 initRes).1.headers.lookup
        "Access-Control-Allow-Origin") = some (finalOrigin "" o9.origin) :=
  thm_C9 o9 rfl "GET" false initRes

end Lieko

namespace Lieko

/-! ## C10: the `get` overload -/

/-- C10: `get` with exactly one string argument not starting with `/`
reads the settings store (no route registration); every other argument
shape delegates to `_addRoute('GET', ...)`, which throws immediately when
no handler argument is supplied (including the one-argument and
zero-argument calls). -/
theorem thm_C10 :
    (∀ (settings : List (String × String)) (s : String), headIsSlash s = false →
      getModel settings [.str s] = .settingLookup (settings.lookup s))
    ∧ (∀ (settings : List (String × String)) (args : List Arg),
      (∀ s, args = [.str s] → headIsSlash s = true) →
      getModel settings args = .routed (addRouteModel "GET" args))
    ∧ (∀ (m : String) (p : Arg), addRouteModel m [p] = .error "Route handler is required")
    ∧ (∀ (m : String), addRouteModel m [] = .error "Route handler is required") := by
  refine ⟨?_, ?_, ?_, ?_⟩
  · intro settings s h
    simp [getModel, h]
  · intro settings args h
    match args with
    | [] => rfl
    | [Arg.str s] =>
      have hs := h s rfl
      simp [getModel, hs]
    | [Arg.fn f] => rfl
    | [Arg.arr l] => rfl
    | a :: b :: t => cases a <;> rfl
  · intro m p
    cases p <;> rfl
  · intro m
    rfl

theorem thm_C10_witness :
    getModel [("debug", "true")] [.str "debug"]
        = .settingLookup ([("debug", "true")].lookup "debug")
    ∧ getModel [] [.str "/x"] = .routed (addRouteModel "GET" [.str "/x"])
    ∧ addRouteModel "GET" [.str "/x"] = .error "Route handler is required" := by
  refine ⟨thm_C10.1 [("debug", "true")] "debug" (by decide), ?_, thm_C10.2.2.1 "GET" (.str "/x")⟩
  refine thm_C10.2.1 [] [.str "/x"] ?_
  intro s hs
  have : "/x" = s := by
    simpa using hs
  subst this
  decide

end Lieko

namespace Lieko

/-! ## C6: query-string coercion -/

theorem handleRequest_query (app : App) (req : Req) :
    (handleRequest app req).query = coercedQueryOf req.url := by
  unfold handleRequest
  rcases dispatch app req with ⟨r, e, o⟩
  rfl

/-- C6: every query value is coerced at enhancement time — the coerced
query is the raw string query with `coerceQ` applied pointwise, where
`"true"`/`"false"` become booleans, `^\d+$` strings become integers,
`^\d+\.\d+$` strings become floats and everything else stays a string —
and the concrete query string `?age=25&active=true&name=bob` yields
`age = 25` (number), `active = true` (boolean), `name = "bob"` (string)
in the query `_handleRequest` attaches to the request. -/
theorem thm_C6 :
    (∀ (url k : String),
      (coercedQueryOf url).lookup k = ((queryOf url).lookup k).map coerceQ)
    ∧ coerceQ "true" = .b true
    ∧ coerceQ "false" = .b false
    ∧ (∀ v : String, isIntStr v = true → coerceQ v = .i (digitsToNat v.data))
    ∧ (∀ v : String, isDecStr v = true → coerceQ v = .f v)
    ∧ (∀ v : String, v ≠ "true" → v ≠ "false" → isIntStr v = false → isDecStr v = false →
        coerceQ v = .s v)
    ∧ (∀ app : App,
      (handleRequest app ⟨"GET", "/p?age=25&active=true&name=bob", "", "", [], false⟩).query
        = [("age", .i 25), ("active", .b true), ("name", .s "bob")]) := by
  refine ⟨?_, rfl, rfl, ?_, ?_, ?_, ?_⟩
  · intro url k
    exact lookup_map_val (queryOf url) k coerceQ
  · intro v h
    have h1 : v ≠ "true" := by rintro rfl; simp [isIntStr] at h
    have h2 : v ≠ "false" := by rintro rfl; simp [isIntStr] at h
    simp [coerceQ, h, h1, h2]
  · intro v h
    have h0 : isIntStr v = false := by
      rcases hv : v.data.dropWhile Char.isDigit with _ | ⟨c, r⟩
      · simp [isDecStr, hv] at h
      · by_contra hi
        have hi1 : isIntStr v = true := by simpa using hi
        simp only [isIntStr, Bool.and_eq_true, List.all_eq_true] at hi1
        have hnil : v.data.dropWhile Char.isDigit = [] :=
          List.dropWhile_eq_nil_iff.mpr (fun x hx => hi1.2 x hx)
        rw [hv] at hnil
        cases hnil
    have h1 : v ≠ "true" := by rintro rfl; simp [isDecStr] at h
    have h2 : v ≠ "false" := by rintro rfl; simp [isDecStr] at h
    simp [coerceQ, h, h0, h1, h2]
  · intro v h1 h2 h3 h4
    simp [coerceQ, h1, h2, h3, h4]
  · intro app
    rw [handleRequest_query]
    decide

end Lieko

namespace Lieko

theorem thm_C6_witness :
    coerceQ "25" = QVal.i 25
    ∧ coerceQ "2.5" = QVal.f "2.5"
    ∧ coerceQ "bob" = QVal.s "bob" := by
  refine ⟨?_, ?_, ?_⟩
  · rw [thm_C6.2.2.2.1 "25" (by decide)]
    decide
  · exact thm_C6.2.2.2.2.1 "2.5" (by decide)
  · exact thm_C6.2.2.2.2.2.1 "bob" (by decide) (by decide) (by decide) (by decide)

end Lieko

namespace Lieko

/-! ## C4: first-match-wins route lookup -/

/-- Whether a route accepts a `(method, pathname)` pair in the main
`_findRoute` loop. -/
def accepts (r : Route) (m p : String) : Bool :=
  methodMatches r m && (patMatch r.pattern p).isSome

theorem findRouteMain_first : ∀ (routes : List Route) (m p : String) (fr : FoundRoute),
    findRouteMain m p routes = some fr →
    ∃ pre post, routes = pre ++ fr.route :: post
      ∧ (∀ r ∈ pre, accepts r m p = false)
      ∧ methodMatches fr.route m = true
      ∧ patMatch fr.route.pattern p = some fr.params
      ∧ fr.matchedPath = p ∧ fr.wasTrailingSlash = false := by
  intro routes m p fr
  induction routes with
  | nil => intro h; simp [findRouteMain] at h
  | cons r rs ih =>
    intro h
    unfold findRouteMain at h
    by_cases hm : methodMatches r m
    · cases hp : patMatch r.pattern p with
      | some caps =>
        rw [if_pos hm, hp] at h
        cases h
        exact ⟨[], rs, rfl, by simp, by simpa using hm, hp, rfl, rfl⟩
      | none =>
        rw [if_pos hm, hp] at h
        obtain ⟨pre, post, heq, hpre, h1, h2, h3, h4⟩ := ih h
        refine ⟨r :: pre, post, by rw [heq]; rfl, ?_, h1, h2, h3, h4⟩
        intro r1 hr1
        rcases List.mem_cons.mp hr1 with hr1 | hr1
        · subst hr1
          simp [accepts, hp]
        · exact hpre r1 hr1
    · rw [if_neg hm] at h
      obtain ⟨pre, post, heq, hpre, h1, h2, h3, h4⟩ := ih h
      refine ⟨r :: pre, post, by rw [heq]; rfl, ?_, h1, h2, h3, h4⟩
      intro r1 hr1
      rcases List.mem_cons.mp hr1 with hr1 | hr1
      · subst hr1
        simp [accepts, hm]
      · exact hpre r1 hr1

/-- C4: with `/users/:id` and `/users/active` registered for GET in that
order, a request to `/users/active` resolves to the `/users/:id` route
with `id = "active"` — and in general `_findRoute`'s main loop returns the
FIRST registered route accepting the pathname for the method, every
earlier registration having failed to accept it: registration order, not
specificity, decides. -/
theorem thm_C4 :
    (∀ h1 h2 : Handler,
      (findRoute [addRouteOne true "GET" "/users/:id" [] h1,
                  addRouteOne true "GET" "/users/active" [] h2] "GET" "/users/active").map
          (fun fr => (fr.route.path, fr.params, fr.matchedPath, fr.wasTrailingSlash))
        = some ("/users/:id", [("id", "active")], "/users/active", false))
    ∧ (∀ (routes : List Route) (m p : String) (fr : FoundRoute),
      findRouteMain m p routes = some fr →
      ∃ pre post, routes = pre ++ fr.route :: post
        ∧ (∀ r ∈ pre, accepts r m p = false)
        ∧ methodMatches fr.route m = true
        ∧ patMatch fr.route.pattern p = some fr.params
        ∧ fr.matchedPath = p ∧ fr.wasTrailingSlash = false) := by
  constructor
  · intro h1 h2
    rfl
  · exact findRouteMain_first

def noopHandler : Handler := fun r => (r, none)

def c4route : Route := addRouteOne true "GET" "/a" [] noopHandler

theorem thm_C4_witness :
    ∃ pre post, [c4route] = pre ++ c4route :: post
      ∧ (∀ r ∈ pre, accepts r "GET" "/a" = false)
      ∧ methodMatches c4route "GET" = true
      ∧ patMatch c4route.pattern "/a" = some []
      ∧ ("/a" : String) = "/a" ∧ (false : Bool) = false :=
  thm_C4.2 [c4route] "GET" "/a" ⟨c4route, [], "/a", false⟩ rfl

end Lieko

namespace Lieko

/-! ## C8: the path-pattern compiler -/

/-- No two adjacent slashes. -/
def noDS : List Char → Prop
  | [] => True
  | [_] => True
  | a :: b :: t => ¬(a = '/' ∧ b = '/') ∧ noDS (b :: t)

theorem collapse_cons : ∀ (b : Char) (t : List Char), ∃ u, collapse (b :: t) = b :: u
  | _, [] => ⟨[], rfl⟩
  | b, c :: t => by
    by_cases h : b = '/' ∧ c = '/'
    · obtain ⟨u, hu⟩ := collapse_cons c t
      refine ⟨u, ?_⟩
      simp only [collapse, if_pos h]
      rw [hu, h.1, h.2]
    · exact ⟨collapse (c :: t), by simp only [collapse, if_neg h]⟩

theorem collapse_noDS : ∀ (cs : List Char), noDS (collapse cs)
  | [] => trivial
  | [c] => by simp [collapse, noDS]
  | a :: b :: t => by
    have h2 := collapse_noDS (b :: t)
    by_cases h : a = '/' ∧ b = '/'
    · simpa [collapse, if_pos h] using h2
    · obtain ⟨u, hu⟩ := collapse_cons b t
      simp only [collapse, if_neg h]
      rw [hu] at h2 ⊢
      exact ⟨h, h2⟩

theorem noDS_dropLast : ∀ (cs : List Char), noDS cs → noDS cs.dropLast
  | [], _ => trivial
  | [_], _ => trivial
  | [_, _], _ => trivial
  | a :: b :: c :: t, h => by
    have ih := noDS_dropLast (b :: c :: t) h.2
    exact ⟨h.1, ih⟩

theorem noDS_last : ∀ (cs : List Char), noDS cs → cs.getLast? = some '/' →
    cs.dropLast.getLast? ≠ some '/'
  | [], _, hl => by simp at hl
  | [c], _, _ => by simp
  | [a, b], h, hl => by
    have hb : b = '/' := by simpa using hl
    intro ha
    have ha1 : a = '/' := by simpa using ha
    exact h.1 ⟨ha1, hb⟩
  | a :: b :: c :: t, h, hl => by
    have ih := noDS_last (b :: c :: t) h.2 (by simpa using hl)
    simpa using ih

theorem normalizePath_shape (p : String) :
    noDS (normalizePath p).data
    ∧ (normalizePath p = "/" ∨ endsWithSlash (normalizePath p) = false) := by
  unfold normalizePath
  by_cases hc : String.mk (collapse (trimChars p.data)) ≠ "/"
      ∧ endsWithSlash (String.mk (collapse (trimChars p.data)))
  · rw [if_pos hc]
    have hnds : noDS (collapse (trimChars p.data)) := collapse_noDS _
    refine ⟨noDS_dropLast _ hnds, Or.inr ?_⟩
    have hl : (collapse (trimChars p.data)).getLast? = some '/' := by
      have := hc.2
      simpa [endsWithSlash] using this
    have := noDS_last _ hnds hl
    simpa [endsWithSlash, dropLastS] using this
  · rw [if_neg hc]
    refine ⟨collapse_noDS _, ?_⟩
    by_cases hq : String.mk (collapse (trimChars p.data)) = "/"
    · exact Or.inl hq
    · right
      rcases not_and_or.mp hc with h1 | h1
      · exact absurd hq (by simpa using h1)
      · simpa using h1

theorem c8_root (allow : Bool) (s : String) :
    patMatch (pathToRegex allow "/") s = some [] ↔ (s = "/" ∨ s = "") := by
  have h : pathToRegex allow "/" = ⟨true, [], false⟩ := rfl
  rw [h]
  unfold patMatch
  by_cases hs : s = "/" ∨ s = "" <;> simp [hs]

theorem paramSearch_sound :
    ∀ (k : Nat) (cont : List Char → Option (List (String × String))) (n : String)
      (cs : List Char) (caps : List (String × String)), k ≤ cs.length →
      paramSearch cont n cs k = some caps →
      ∃ pre caps1 rest, caps = (n, String.mk pre) :: caps1 ∧ pre ≠ []
        ∧ (∀ c ∈ pre, c ≠ '/') ∧ cont rest = some caps1 := by
  intro k
  induction k with
  | zero => intro cont n cs caps hk h; simp [paramSearch] at h
  | succ k ih =>
    intro cont n cs caps hk h
    unfold paramSearch at h
    rcases h1 : (if (cs.take (k + 1)).any (· = '/') = true then none
        else (cont (cs.drop (k + 1))).map
          (fun caps => (n, String.mk (cs.take (k + 1))) :: caps)) with _ | v
    · rw [h1] at h
      simp only [Option.orElse] at h
      exact ih cont n cs caps (Nat.le_of_succ_le hk) h
    · rw [h1] at h
      simp only [Option.orElse] at h
      cases h
      by_cases hsl : (cs.take (k + 1)).any (· = '/') = true
      · rw [if_pos hsl] at h1; cases h1
      · rw [if_neg hsl] at h1
        rcases hmap : cont (cs.drop (k + 1)) with _ | caps1
        · rw [hmap] at h1; cases h1
        · rw [hmap] at h1
          simp only [Option.map_some'] at h1
          cases h1
          refine ⟨cs.take (k + 1), caps1, cs.drop (k + 1), rfl, ?_, ?_, hmap⟩
          · have hlen : (cs.take (k + 1)).length = k + 1 := List.length_take_of_le hk
            intro h0
            rw [h0] at hlen
            cases hlen
          · intro c hcmem
            simp only [List.any_eq_true, not_exists, not_and, Bool.not_eq_true] at hsl
            intro hc0
            have h3 := hsl c hcmem
            rw [hc0] at h3
            simp at h3

theorem wildSearch_sound :
    ∀ (j : Nat) (cont : List Char → Option (List (String × String)))
      (cs : List Char) (caps : List (String × String)),
      wildSearch cont cs j = some caps → ∃ rest, cont rest = some caps := by
  intro j
  induction j with
  | zero => intro cont cs caps h; exact ⟨cs, h⟩
  | succ j ih =>
    intro cont cs caps h
    unfold wildSearch at h
    rcases h1 : cont (cs.drop (j + 1)) with _ | v
    · rw [h1] at h
      simp only [Option.orElse] at h
      exact ih cont cs caps h
    · rw [h1] at h
      simp only [Option.orElse] at h
      cases h
      exact ⟨cs.drop (j + 1), h1⟩

theorem mtch_caps : ∀ (ts : List PatTok) (cs : List Char) (caps : List (String × String)),
    mtch ts cs = some caps → ∀ nv ∈ caps, nv.2 ≠ "" ∧ ∀ c ∈ nv.2.data, c ≠ '/' := by
  intro ts
  induction ts with
  | nil =>
    intro cs caps h
    cases cs with
    | nil => simp [mtch] at h; subst h; simp
    | cons x xs => simp [mtch] at h
  | cons t ts ih =>
    intro cs caps h
    cases t with
    | lit c =>
      cases cs with
      | nil => simp [mtch] at h
      | cons x xs =>
        by_cases hx : x = c
        · rw [mtch, if_pos hx] at h
          exact ih xs caps h
        · rw [mtch, if_neg hx] at h
          cases h
    | param n =>
      have h1 := paramSearch_sound cs.length (mtch ts) n cs caps (Nat.le_refl _) h
      obtain ⟨pre, caps1, rest, hcaps, hpre, hslash, hcont⟩ := h1
      subst hcaps
      intro nv hnv
      rcases List.mem_cons.mp hnv with hnv | hnv
      · subst hnv
        constructor
        · intro h0
          apply hpre
          have h0d : (String.mk pre).data = ("" : String).data := by
            have : String.mk pre = "" := h0
            rw [this]
          simpa using h0d
        · simpa using hslash
      · exact ih rest caps1 hcont nv hnv
    | wild =>
      have h1 := wildSearch_sound cs.length (mtch ts) cs caps h
      obtain ⟨rest, hcont⟩ := h1
      exact ih rest caps hcont

theorem c8_captures (allow : Bool) (p s : String) (caps : List (String × String))
    (h : patMatch (pathToRegex allow p) s = some caps) :
    ∀ nv ∈ caps, nv.2 ≠ "" ∧ ∀ c ∈ nv.2.data, c ≠ '/' := by
  unfold patMatch at h
  by_cases hr : (pathToRegex allow p).root = true
  · rw [if_pos hr] at h
    by_cases hs : s = "/" ∨ s = ""
    · rw [if_pos hs] at h
      cases h
      simp
    · rw [if_neg hs] at h
      cases h
  · rw [if_neg hr] at h
    rcases hm : mtch (pathToRegex allow p).toks s.data with _ | caps1
    · rw [hm] at h
      by_cases hc : (pathToRegex allow p).optSlash = true ∧ endsWithSlash s = true
      · rw [if_pos hc] at h
        exact mtch_caps _ _ _ h
      · rw [if_neg hc] at h
        cases h
    · rw [hm] at h
      cases h
      exact mtch_caps _ _ _ hm

end Lieko

namespace Lieko

theorem tokenizeF_lits : ∀ (fuel : Nat) (cs : List Char), cs.length ≤ fuel →
    (∀ c ∈ cs, c ≠ ':' ∧ c ≠ '*') → tokenizeF fuel cs = cs.map .lit := by
  intro fuel
  induction fuel with
  | zero =>
    intro cs h hc
    have : cs = [] := List.length_eq_zero.mp (Nat.le_zero.mp h)
    subst this
    rfl
  | succ f ih =>
    intro cs h hc
    cases cs with
    | nil => rfl
    | cons c t =>
      have hcc := hc c (List.mem_cons_self c t)
      rw [tokenizeF, if_neg hcc.2, if_neg hcc.1]
      rw [ih t (Nat.le_of_succ_le_succ h) (fun x hx => hc x (List.mem_cons_of_mem c hx))]
      rfl

theorem tokenize_lits (cs : List Char) (hc : ∀ c ∈ cs, c ≠ ':' ∧ c ≠ '*') :
    tokenize cs = cs.map .lit :=
  tokenizeF_lits cs.length cs (Nat.le_refl _) hc

theorem mtch_lits : ∀ (l cs : List Char) (caps : List (String × String)),
    mtch (l.map .lit) cs = some caps → cs = l ∧ caps = [] := by
  intro l
  induction l with
  | nil =>
    intro cs caps h
    cases cs with
    | nil =>
      simp [mtch] at h
      exact ⟨rfl, h⟩
    | cons x xs => simp [mtch] at h
  | cons c l1 ih =>
    intro cs caps h
    cases cs with
    | nil => simp [List.map_cons, mtch] at h
    | cons x xs =>
      by_cases hx : x = c
      · rw [List.map_cons, mtch, if_pos hx] at h
        obtain ⟨h1, h2⟩ := ih xs caps h
        exact ⟨by rw [hx, h1], h2⟩
      · rw [List.map_cons, mtch, if_neg hx] at h
        cases h

theorem mtch_lit_prefix : ∀ (l : List Char) (ts : List PatTok) (cs : List Char),
    mtch (l.map .lit ++ ts) (l ++ cs) = mtch ts cs := by
  intro l
  induction l with
  | nil => intro ts cs; rfl
  | cons c l1 ih =>
    intro ts cs
    rw [List.map_cons, List.cons_append, List.cons_append, mtch, if_pos rfl]
    exact ih ts cs

theorem wild_end : ∀ (cs : List Char), mtch [.wild] cs = some [] := by
  intro cs
  cases cs with
  | nil => rfl
  | cons c t =>
    have hd : (c :: t).drop (t.length + 1) = [] := List.drop_length (c :: t)
    show wildSearch (mtch []) (c :: t) (t.length + 1) = some []
    rw [wildSearch, hd]
    rfl

theorem c8_wild (allow : Bool) (tail : String) :
    patMatch (pathToRegex allow "/files/*") ("/files/" ++ tail) = some [] := by
  have htoks : (pathToRegex allow "/files/*").toks
      = ("/files/".data.map PatTok.lit) ++ [.wild] := rfl
  have hroot : (pathToRegex allow "/files/*").root = false := rfl
  have hopt : (pathToRegex allow "/files/*").optSlash = false := rfl
  unfold patMatch
  rw [hroot, htoks, hopt]
  have hdata : ("/files/" ++ tail).data = "/files/".data ++ tail.data :=
    String.data_append _ _
  rw [hdata, mtch_lit_prefix, wild_end]
  simp

theorem c8_static (allow : Bool) (p s : String) (caps : List (String × String))
    (h1 : hasChar (normalizePath p) ':' = false)
    (h2 : hasChar (normalizePath p) '*' = false)
    (h3 : normalizePath p ≠ "/")
    (h : patMatch (pathToRegex allow p) s = some caps) :
    s = normalizePath p ∨ s = normalizePath p ++ "/" := by
  have hchars : ∀ c ∈ (normalizePath p).data, c ≠ ':' ∧ c ≠ '*' := by
    intro c hcmem
    unfold hasChar at h1 h2
    constructor
    · intro h0
      have := (List.any_eq_false.mp h1) c hcmem
      rw [h0] at this
      simp at this
    · intro h0
      have := (List.any_eq_false.mp h2) c hcmem
      rw [h0] at this
      simp at this
  have hpat : pathToRegex allow p =
      ⟨false, tokenize (normalizePath p).data,
        (!(hasChar (normalizePath p) ':') && !(hasChar (normalizePath p) '*')) && allow⟩ := by
    unfold pathToRegex
    rw [if_neg h3]
  rw [hpat] at h
  unfold patMatch at h
  simp only [tokenize_lits _ hchars] at h
  rcases hm : mtch ((normalizePath p).data.map PatTok.lit) s.data with _ | caps1
  · rw [hm] at h
    by_cases hc : ((!(hasChar (normalizePath p) ':') && !(hasChar (normalizePath p) '*'))
        && allow) = true ∧ endsWithSlash s = true
    · rw [if_pos hc] at h
      obtain ⟨hdrop, -⟩ := mtch_lits _ _ _ h
      right
      have hlast : s.data.getLast? = some '/' := by
        have := hc.2
        simpa [endsWithSlash] using this
      have hne : s.data ≠ [] := by
        intro h0
        rw [h0] at hlast
        cases hlast
      have hsplit := List.dropLast_append_getLast hne
      have hlv : s.data.getLast hne = '/' := by
        have := List.getLast?_eq_getLast s.data hne
        rw [hlast] at this
        exact (Option.some.injEq _ _).mp this.symm
      apply String.ext
      rw [String.data_append]
      have hdl : (dropLastS s).data = s.data.dropLast := rfl
      rw [hdl] at hdrop
      rw [← hsplit, hdrop, hlv]
    · rw [if_neg hc] at h
      cases h
  · rw [hm] at h
    obtain ⟨hdata, -⟩ := mtch_lits _ _ _ hm
    left
    exact String.ext hdata

end Lieko

namespace Lieko

/-- C8: the path compiler (a) produces a normalized path with no repeated
slashes and no trailing slash (unless the path normalizes to `/` itself),
(b) compiles `/` to a matcher accepting exactly `/` and the empty string,
(c) matches each `:name` group against one or more non-slash characters
(every capture value is nonempty and slash-free), (d) expands `*` to `.*`
(a wildcard route accepts every suffix, slashes included), and (e) performs
a single anchored full-string match on the pathname, never a prefix match:
a static route's matcher accepts only the normalized path itself or the
path plus one trailing slash. -/
theorem thm_C8 :
    (∀ p : String, noDS (normalizePath p).data
      ∧ (normalizePath p = "/" ∨ endsWithSlash (normalizePath p) = false))
    ∧ (∀ (allow : Bool) (s : String),
      patMatch (pathToRegex allow "/") s = some [] ↔ (s = "/" ∨ s = ""))
    ∧ (∀ (allow : Bool) (p s : String) (caps : List (String × String)),
      patMatch (pathToRegex allow p) s = some caps →
      ∀ nv ∈ caps, nv.2 ≠ "" ∧ ∀ c ∈ nv.2.data, c ≠ '/')
    ∧ (∀ (allow : Bool) (tail : String),
      patMatch (pathToRegex allow "/files/*") ("/files/" ++ tail) = some [])
    ∧ (∀ (allow : Bool) (p s : String) (caps : List (String × String)),
      hasChar (normalizePath p) ':' = false → hasChar (normalizePath p) '*' = false →
      normalizePath p ≠ "/" → patMatch (pathToRegex allow p) s = some caps →
      s = normalizePath p ∨ s = normalizePath p ++ "/") :=
  ⟨normalizePath_shape, c8_root, c8_captures, c8_wild, c8_static⟩

theorem thm_C8_witness :
    (noDS (normalizePath "//a///b/").data
      ∧ (normalizePath "//a///b/" = "/" ∨ endsWithSlash (normalizePath "//a///b/") = false))
    ∧ (patMatch (pathToRegex true "/") "/" = some [] ↔ (("/" : String) = "/" ∨ ("/" : String) = ""))
    ∧ (("active" : String) ≠ "" ∧ ∀ c ∈ ("active" : String).data, c ≠ '/')
    ∧ patMatch (pathToRegex true "/files/*") ("/files/" ++ "a/b.png") = some []
    ∧ (("/users/" : String) = normalizePath "/users"
      ∨ ("/users/" : String) = normalizePath "/users" ++ "/") := by
  refine ⟨thm_C8.1 "//a///b/", thm_C8.2.1 true "/", ?_, thm_C8.2.2.2.1 true "a/b.png", ?_⟩
  · exact thm_C8.2.2.1 true "/users/:id" "/users/active" [("id", "active")] (by decide)
      ("id", "active") (List.mem_cons_self _ _)
  · exact thm_C8.2.2.2.2 true "/users" "/users/" [] (by decide) (by decide) (by decide) (by decide)

end Lieko

namespace Lieko

/-! ## C3: body-size-limit abort -/

def sumBytes (chunks : List String) : Nat :=
  (chunks.map String.utf8ByteSize).sum

theorem streamLoop_exceed :
    ∀ (limit : Nat) (label : String) (pre : List String) (c : String) (rest : List String)
      (size : Nat) (raw : String),
      size + sumBytes pre ≤ limit → limit < size + sumBytes pre + c.utf8ByteSize →
      streamLoop limit label (pre ++ c :: rest) size raw = .error (payloadErr label) := by
  intro limit label pre
  induction pre with
  | nil =>
    intro c rest size raw h1 h2
    simp only [List.nil_append, streamLoop]
    rw [if_pos]
    simp [sumBytes] at h1 h2
    omega
  | cons p ps ih =>
    intro c rest size raw h1 h2
    have hsum : sumBytes (p :: ps) = p.utf8ByteSize + sumBytes ps := by
      simp [sumBytes]
    rw [hsum] at h1 h2
    simp only [List.cons_append, streamLoop]
    rw [if_neg]
    · exact ih c rest (size + p.utf8ByteSize) (raw ++ p) (by omega) (by omega)
    · omega

theorem streamLoop_ok :
    ∀ (limit : Nat) (label : String) (chunks : List String) (size : Nat) (raw : String),
      size + sumBytes chunks ≤ limit →
      streamLoop limit label chunks size raw
        = .ok (chunks.foldl (· ++ ·) raw, size + sumBytes chunks) := by
  intro limit label chunks
  induction chunks with
  | nil =>
    intro size raw h
    simp [streamLoop, sumBytes]
  | cons c cs ih =>
    intro size raw h
    have hsum : sumBytes (c :: cs) = c.utf8ByteSize + sumBytes cs := by simp [sumBytes]
    rw [hsum] at h
    simp only [streamLoop, List.foldl_cons]
    rw [if_neg (by omega)]
    rw [ih (size + c.utf8ByteSize) (raw ++ c) (by omega)]
    rw [hsum, Nat.add_assoc]

/-- C3: (a) the moment the running size exceeds the JSON limit — at the
first chunk whose arrival crosses it — `_parseBody` rejects with the
413/`PAYLOAD_TOO_LARGE` error, the crossing chunk is not buffered and the
remaining chunks are never examined (the result is the same for every
continuation of the stream); (b) the dispatcher answers such a rejection
with a status-413 JSON response and the route handler never runs; (c) a
body of exactly the configured limit in bytes passes the full streamed
text to the content-type decode step (it is accepted and parsed). -/
theorem thm_C3 :
    (∀ (opts : BodyOpts) (m ct0 : String) (pre : List String) (c : String)
      (rest : List String),
      ¬ (m = "GET" ∨ m = "DELETE" ∨ m = "HEAD") →
      ctIncludes (toLowerS ct0) "application/json" = true →
      sumBytes pre ≤ parseLimit opts.json.limit →
      parseLimit opts.json.limit < sumBytes pre + c.utf8ByteSize →
      parseBody m ct0 (pre ++ c :: rest) opts
          = .error (payloadErr (limitStr opts.json.limit))
        ∧ parseBody m ct0 (pre ++ c :: rest) opts = parseBody m ct0 (pre ++ [c]) opts)
    ∧ (∀ label : String, (payloadErr label).code = some "PAYLOAD_TOO_LARGE"
        ∧ (payloadErr label).status = some 413)
    ∧ (∀ (app : App) (req : Req) (e : JsError),
      app.corsOptions.enabled = false →
      (∀ r ∈ app.routes, r.cors = RouteCors.unset) →
      parseBody req.method req.contentType req.chunks
          (effBodyOpts app (findRoute app.routes req.method (pathOf req.url))) = .error e →
      e.code = some "PAYLOAD_TOO_LARGE" →
      (handleRequest app req).res.sentStatus = some 413
        ∧ (handleRequest app req).res.out = [payload413Body e.message]
        ∧ ∀ b, Ev.handlerRun b ∉ (handleRequest app req).events)
    ∧ (∀ (opts : BodyOpts) (m ct0 : String) (chunks : List String),
      ¬ (m = "GET" ∨ m = "DELETE" ∨ m = "HEAD") →
      ctIncludes (toLowerS ct0) "application/json" = true →
      sumBytes chunks = parseLimit opts.json.limit →
      parseBody m ct0 chunks opts
        = finishBody (toLowerS ct0) opts (chunks.foldl (· ++ ·) "") (sumBytes chunks)) := by
  refine ⟨?_, ?_, ?_, ?_⟩
  · intro opts m ct0 pre c rest hm hct h1 h2
    have hlim : detectLimit (toLowerS ct0) opts = parseLimit opts.json.limit := by
      unfold detectLimit
      rw [if_pos hct]
    have hlab : limitLabel (toLowerS ct0) opts = limitStr opts.json.limit := by
      unfold limitLabel
      rw [if_pos hct]
    have hstream := streamLoop_exceed (parseLimit opts.json.limit)
      (limitStr opts.json.limit) pre c rest 0 "" (by omega) (by omega)
    have hstream2 := streamLoop_exceed (parseLimit opts.json.limit)
      (limitStr opts.json.limit) pre c [] 0 "" (by omega) (by omega)
    constructor
    · unfold parseBody
      rw [if_neg hm, hlim, hlab, hstream]
    · unfold parseBody
      rw [if_neg hm, hlim, hlab, hstream, hstream2]
      rw [if_neg hm]
  · intro label
    exact ⟨rfl, rfl⟩
  · intro app req e hcors hroutes hparse hcode
    have hco : effCors app (findRoute app.routes req.method (pathOf req.url)) = none := by
      unfold effCors
      cases hfr : findRoute app.routes req.method (pathOf req.url) with
      | none => simp [hcors]
      | some fr =>
        have hu := hroutes fr.route (findRoute_mem _ _ _ _ hfr)
        simp [hu, hcors]
    have htop : ¬ (req.method = "OPTIONS" ∧ app.corsOptions.enabled = true) := by
      rintro ⟨-, h⟩
      rw [hcors] at h
      cases h
    have hcp : corsPhase app req = (initRes, []) := by
      unfold corsPhase
      rw [hco]
    have hjson : resJson (resStatus initRes 413) (payload413Body e.message)
        = ({ nodeStatus := 413, closureStatus := 200, headers := [], headersSent := true,
             responseSent := true, finished := true, sentStatus := some 413,
             out := [payload413Body e.message], endCalls := 1 }, false) := rfl
    unfold handleRequest dispatch
    rw [if_neg htop, hco]
    simp only [Option.isSome_none, Bool.false_eq_true, false_and, if_false, hcp]
    unfold afterCors
    simp only [hparse]
    unfold parseErrorPhase
    rw [if_pos hcode]
    simp only [hjson]
    refine ⟨by trivial, by trivial, ?_⟩
    intro b
    simp
  · intro opts m ct0 chunks hm hct hsum
    have hlim : detectLimit (toLowerS ct0) opts = parseLimit opts.json.limit := by
      unfold detectLimit
      rw [if_pos hct]
    unfold parseBody
    rw [if_neg hm, hlim]
    rw [streamLoop_ok (parseLimit opts.json.limit) (limitLabel (toLowerS ct0) opts)
      chunks 0 "" (by omega)]
    simp

end Lieko

namespace Lieko

def opts3 : BodyOpts := ⟨⟨.num 3, false⟩, ⟨.num 3, true⟩, ⟨.num 3⟩⟩

def app3 : App :=
  { corsOptions := {},
    routes := [addRouteOne true "POST" "/x" [] noopHandler],
    middlewares := [],
    errorHandlers := [],
    notFoundHandler := none,
    bodyParserOptions := opts3 }

def req3 : Req :=
  { method := "POST", url := "/x", contentType := "application/json", chunks := ["ab", "cd"] }

theorem thm_C3_witness :
    (parseBody "POST" "application/json" (["ab"] ++ "cd" :: ["zz"]) opts3
        = .error (payloadErr (limitStr opts3.json.limit))
      ∧ parseBody "POST" "application/json" (["ab"] ++ "cd" :: ["zz"]) opts3
        = parseBody "POST" "application/json" (["ab"] ++ ["cd"]) opts3)
    ∧ ((payloadErr "3").code = some "PAYLOAD_TOO_LARGE"
      ∧ (payloadErr "3").status = some 413)
    ∧ ((handleRequest app3 req3).res.sentStatus = some 413
      ∧ (handleRequest app3 req3).res.out = [payload413Body (payloadErr "3").message]
      ∧ ∀ b, Ev.handlerRun b ∉ (handleRequest app3 req3).events)
    ∧ parseBody "POST" "application/json" ["\x7b \x7d"] opts3
        = finishBody (toLowerS "application/json") opts3
            ((["\x7b \x7d"]).foldl (· ++ ·) "") (sumBytes ["\x7b \x7d"]) := by
  refine ⟨thm_C3.1 opts3 "POST" "application/json" ["ab"] "cd" ["zz"]
      (by decide) (by decide) (by decide) (by decide),
    thm_C3.2.1 "3",
    thm_C3.2.2.1 app3 req3 (payloadErr "3") rfl ?_ rfl rfl,
    thm_C3.2.2.2 opts3 "POST" "application/json" ["\x7b \x7d"]
      (by decide) (by decide) (by decide)⟩
  intro r hr
  have hr1 : r = addRouteOne true "POST" "/x" [] noopHandler := by
    simpa [app3] using hr
  rw [hr1]
  rfl

end Lieko

namespace Lieko

/-! ## C7: strict-mode JSON and malformed bodies -/

theorem outerCatch_events_mono (app : App) (e : JsError) (res : Res) (evs : List Ev) :
    ∀ ev ∈ evs, ev ∈ (outerCatch app e res evs).2.1 := by
  intro ev hev
  unfold outerCatch
  by_cases hs : res.headersSent = true
  · rw [if_pos hs]
    exact hev
  · rw [if_neg hs]
    rcases runErrorHandlers app.errorHandlers e res with ⟨res1, out⟩
    cases out <;> simpa using Or.inl hev

/-- C7, counterexample.  The claim says that with strict mode enabled, a
raw trimmed body that does not start with `[` or `{` raises a body-decode
error.  The body `"hello"` is exactly such a body (strict mode on, trimmed
text nonempty, first character `h`), yet `_parseBody` resolves it to an
empty object without any error, because `JSON.parse` throws first and the
catch block sets `req.body = \x7b\x7d` — the strict check is never
reached for malformed JSON. -/
theorem ce_C7 :
    parseBody "POST" "application/json" ["hello"] defaultBodyOpts
        = .ok ⟨.emptyObj, 5⟩
    ∧ defaultBodyOpts.json.strict = true
    ∧ trimS "hello" ≠ ""
    ∧ startsBracket (trimS "hello") = false := by
  refine ⟨?_, ?_, ?_, ?_⟩ <;> decide

/-- C7 (amended): for an `application/json` body within the size limit,
malformed JSON (a `JSON.parse` failure) always degrades to
`req.body = \x7b\x7d` without raising an error, even in strict mode; the
strict-mode body-decode error is raised only when the body parses as
valid JSON whose trimmed text is nonempty and does not start with `[` or
`{` — and such an error (its `code` is not `PAYLOAD_TOO_LARGE`) is passed
to the Error-Handler Chain by the dispatcher rather than handled
locally. -/
theorem thm_C7_amended :
    (∀ (ct : String) (opts : BodyOpts) (raw : String) (size : Nat),
      ctIncludes ct "application/json" = true → jsonWf raw = false →
      finishBody ct opts raw size = .ok ⟨.emptyObj, size⟩)
    ∧ (∀ (ct : String) (opts : BodyOpts) (raw : String) (size : Nat),
      ctIncludes ct "application/json" = true → jsonWf raw = true →
      opts.json.strict = true → trimS raw ≠ "" → startsBracket (trimS raw) = false →
      finishBody ct opts raw size = .error strictModeErr)
    ∧ strictModeErr.code = none
    ∧ (∀ (app : App) (req : Req) (e : JsError),
      app.corsOptions.enabled = false →
      (∀ r ∈ app.routes, r.cors = RouteCors.unset) →
      parseBody req.method req.contentType req.chunks
          (effBodyOpts app (findRoute app.routes req.method (pathOf req.url))) = .error e →
      e.code ≠ some "PAYLOAD_TOO_LARGE" →
      Ev.errorChainRun false ∈ (handleRequest app req).events) := by
  refine ⟨?_, ?_, rfl, ?_⟩
  · intro ct opts raw size hct hwf
    unfold finishBody
    rw [if_pos hct, hwf]
    rfl
  · intro ct opts raw size hct hwf hstrict htrim hbr
    unfold finishBody
    rw [if_pos hct, hwf]
    simp only [if_true]
    rw [if_pos ⟨hstrict, htrim, hbr⟩]
  · intro app req e hcors hroutes hparse hcode
    have hco : effCors app (findRoute app.routes req.method (pathOf req.url)) = none := by
      unfold effCors
      cases hfr : findRoute app.routes req.method (pathOf req.url) with
      | none => simp [hcors]
      | some fr =>
        have hu := hroutes fr.route (findRoute_mem _ _ _ _ hfr)
        simp [hu, hcors]
    have htop : ¬ (req.method = "OPTIONS" ∧ app.corsOptions.enabled = true) := by
      rintro ⟨-, h⟩
      rw [hcors] at h
      cases h
    have hcp : corsPhase app req = (initRes, []) := by
      unfold corsPhase
      rw [hco]
    unfold handleRequest dispatch
    rw [if_neg htop, hco]
    simp only [Option.isSome_none, Bool.false_eq_true, false_and, if_false, hcp]
    unfold afterCors
    simp only [hparse]
    unfold parseErrorPhase
    rw [if_neg hcode]
    have hi : initRes.headersSent = false := rfl
    rcases hre : runErrorHandlers app.errorHandlers e initRes with ⟨res1, out⟩
    cases out with
    | ok => simp [hi]
    | stalled => simp [hi]
    | threw e1 =>
      show Ev.errorChainRun false ∈
        (match outerCatch app e1 res1 ([] ++ [Ev.bodyParseRun]
            ++ [Ev.errorChainRun initRes.headersSent]) with
          | (res2, evs2, oc) => HRes.mk res2 evs2 oc (coercedQueryOf req.url)).events
      have hmem := outerCatch_events_mono app e1 res1
        ([] ++ [Ev.bodyParseRun] ++ [Ev.errorChainRun initRes.headersSent])
        (Ev.errorChainRun false) (by simp [hi])
      rcases ho : outerCatch app e1 res1
          ([] ++ [Ev.bodyParseRun] ++ [Ev.errorChainRun initRes.headersSent])
        with ⟨r2, evs2, oc2⟩
      rw [ho] at hmem
      exact hmem

end Lieko

namespace Lieko

def app7 : App :=
  { corsOptions := {},
    routes := [addRouteOne true "POST" "/x" [] noopHandler],
    middlewares := [],
    errorHandlers := [],
    notFoundHandler := none,
    bodyParserOptions := defaultBodyOpts }

def req7 : Req :=
  { method := "POST", url := "/x", contentType := "application/json", chunks := ["42"] }

theorem thm_C7_amended_witness :
    finishBody "application/json" defaultBodyOpts "hello" 5 = .ok ⟨.emptyObj, 5⟩
    ∧ finishBody "application/json" defaultBodyOpts "42" 2 = .error strictModeErr
    ∧ Ev.errorChainRun false ∈ (handleRequest app7 req7).events := by
  refine ⟨thm_C7_amended.1 "application/json" defaultBodyOpts "hello" 5 (by decide) (by decide),
    thm_C7_amended.2.1 "application/json" defaultBodyOpts "42" 2
      (by decide) (by decide) (by decide) (by decide) (by decide),
    thm_C7_amended.2.2.2 app7 req7 strictModeErr rfl ?_ (by decide) (by decide)⟩
  intro r hr
  have hr1 : r = addRouteOne true "POST" "/x" [] noopHandler := by
    simpa [app7] using hr
  rw [hr1]
  rfl

end Lieko

namespace Lieko

/-! ## C2: strict-origin 403 short-circuit -/

theorem applyCors_403 (origin method : String) (acrpn : Bool) (o : CorsOptions) (res : Res)
    (he : o.enabled = true) (hs : o.strictOrigin = true) (ho : origin ≠ "")
    (hm : matchOrigin origin o.origin = false) :
    applyCors origin method acrpn o res
      = (rawEnd { res with nodeStatus := 403 } (forbiddenBody origin), .forbidden) := by
  unfold applyCors
  rw [if_neg (not_not_intro he), if_pos ⟨hs, ho, hm⟩]

/-- The response state after the strict-origin 403 short-circuit on a
fresh response. -/
def res403 (origin : String) : Res :=
  { nodeStatus := 403, closureStatus := 200, headers := [], headersSent := true,
    responseSent := false, finished := true, sentStatus := some 403,
    out := [forbiddenBody origin], endCalls := 1 }

theorem runGlobalMws_sent (eh : List ErrH) (url : String) (l : List MwEntry) (i : Nat)
    (res : Res) (h : res.headersSent = true) :
    runGlobalMws eh url l i res = (res, [], .retEarly)
      ∨ runGlobalMws eh url l i res = (res, [], .normal) := by
  cases l with
  | nil => exact Or.inr rfl
  | cons mw rest =>
    left
    unfold runGlobalMws
    rw [if_pos h]

/-- Event predicate: not a middleware-entry or handler event. -/
def nonStage (ev : Ev) : Prop :=
  (∀ i b, ev ≠ Ev.globalMwRun i b) ∧ (∀ i b, ev ≠ Ev.routeMwRun i b)
    ∧ (∀ b, ev ≠ Ev.handlerRun b)

theorem outerCatch_shape (app : App) (e : JsError) (res : Res) (evs : List Ev) :
    ∃ extra, (outerCatch app e res evs).2.1 = evs ++ extra
      ∧ ∀ ev ∈ extra, ev = Ev.errorChainRun res.headersSent := by
  unfold outerCatch
  by_cases hs : res.headersSent = true
  · rw [if_pos hs]
    exact ⟨[], by simp, by simp⟩
  · rw [if_neg hs]
    rcases runErrorHandlers app.errorHandlers e res with ⟨res1, out⟩
    cases out <;>
      exact ⟨[Ev.errorChainRun res.headersSent], rfl, by simp⟩

theorem parseErrorPhase_shape (app : App) (e : JsError) (res : Res) (evs : List Ev) :
    ∃ extra, (parseErrorPhase app e res evs).2.1 = evs ++ extra
      ∧ ∀ ev ∈ extra, nonStage ev := by
  unfold parseErrorPhase
  by_cases hc : e.code = some "PAYLOAD_TOO_LARGE"
  · rw [if_pos hc]
    rcases resJson (resStatus res 413) (payload413Body e.message) with ⟨res1, t⟩
    cases t
    · exact ⟨[Ev.resp413], rfl, by simp [nonStage]⟩
    · obtain ⟨extra, hx, hall⟩ := outerCatch_shape app headersSentErr res1 (evs ++ [Ev.resp413])
      refine ⟨[Ev.resp413] ++ extra, by rw [← List.append_assoc]; exact hx, ?_⟩
      intro ev hev
      rcases List.mem_append.mp hev with hev | hev
      · simp at hev
        subst hev
        simp [nonStage]
      · rw [hall ev hev]
        simp [nonStage]
  · rw [if_neg hc]
    rcases runErrorHandlers app.errorHandlers e res with ⟨res1, out⟩
    cases out with
    | ok => exact ⟨[Ev.errorChainRun res.headersSent], rfl, by simp [nonStage]⟩
    | stalled => exact ⟨[Ev.errorChainRun res.headersSent], rfl, by simp [nonStage]⟩
    | threw e1 =>
      obtain ⟨extra, hx, hall⟩ := outerCatch_shape app e1 res1
        (evs ++ [Ev.errorChainRun res.headersSent])
      refine ⟨[Ev.errorChainRun res.headersSent] ++ extra,
        by rw [← List.append_assoc]; exact hx, ?_⟩
      intro ev hev
      rcases List.mem_append.mp hev with hev | hev
      · simp at hev
        subst hev
        simp [nonStage]
      · rw [hall ev hev]
        simp [nonStage]

end Lieko

namespace Lieko

/-- C2 (amended): for every request whose effective CORS policy (the
app-level policy, with no per-route override) has `strictOrigin` set and
whose nonempty `Origin` does not match, `_applyCors` writes the 403 JSON
short-circuit, and afterwards no global-middleware entry, route-middleware
entry or handler ever runs; for an `OPTIONS` request the dispatcher
returns immediately (no body parsing, no error chain); for any other
method BODY PARSING STILL EXECUTES, and when it does not fail (or fails
with the locally-handled payload-too-large error) the response stays the
403 with the origin-forbidden JSON body and the Error-Handler Chain is
bypassed. -/
theorem thm_C2_amended (app : App) (req : Req)
    (h1 : app.corsOptions.enabled = true)
    (h2 : app.corsOptions.strictOrigin = true)
    (h3 : req.origin ≠ "")
    (h4 : matchOrigin req.origin app.corsOptions.origin = false)
    (h5 : ∀ r ∈ app.routes, r.cors = RouteCors.unset) :
    ((∀ i b, Ev.globalMwRun i b ∉ (handleRequest app req).events)
      ∧ (∀ i b, Ev.routeMwRun i b ∉ (handleRequest app req).events)
      ∧ (∀ b, Ev.handlerRun b ∉ (handleRequest app req).events))
    ∧ (req.method = "OPTIONS" →
        (handleRequest app req).events = [Ev.corsRun CorsStep.forbidden]
        ∧ (handleRequest app req).res.sentStatus = some 403
        ∧ (handleRequest app req).res.out = [forbiddenBody req.origin])
    ∧ (req.method ≠ "OPTIONS" → Ev.bodyParseRun ∈ (handleRequest app req).events)
    ∧ (req.method ≠ "OPTIONS" →
        (∀ e, parseBody req.method req.contentType req.chunks
            (effBodyOpts app (findRoute app.routes req.method (pathOf req.url)))
              = .error e →
          e.code = some "PAYLOAD_TOO_LARGE") →
        (handleRequest app req).res.sentStatus = some 403
        ∧ (handleRequest app req).res.out = [forbiddenBody req.origin]
        ∧ ∀ b, Ev.errorChainRun b ∉ (handleRequest app req).events) := by
  have hrend : rawEnd { initRes with nodeStatus := 403 } (forbiddenBody req.origin)
      = res403 req.origin := rfl
  have hac : applyCors req.origin req.method req.acrpn app.corsOptions initRes
      = (res403 req.origin, .forbidden) := by
    rw [applyCors_403 req.origin req.method req.acrpn app.corsOptions initRes h1 h2 h3 h4,
      hrend]
  by_cases hm : req.method = "OPTIONS"
  · have hd : handleRequest app req
        = ⟨res403 req.origin, [Ev.corsRun .forbidden], .done, coercedQueryOf req.url⟩ := by
      unfold handleRequest dispatch
      rw [if_pos ⟨hm, h1⟩, hac]
    rw [hd]
    refine ⟨⟨by simp, by simp, by simp⟩, fun _ => ⟨rfl, rfl, rfl⟩,
      fun hne => absurd hm hne, fun hne => absurd hm hne⟩
  · have hco : effCors app (findRoute app.routes req.method (pathOf req.url))
        = some app.corsOptions := by
      unfold effCors
      cases hfr : findRoute app.routes req.method (pathOf req.url) with
      | none => simp [h1]
      | some fr =>
        have hu := h5 fr.route (findRoute_mem _ _ _ _ hfr)
        simp [hu, h1]
    have hcp : corsPhase app req = (res403 req.origin, [Ev.corsRun .forbidden]) := by
      unfold corsPhase
      rw [hco]
      simp only [hac]
    have hd : dispatch app req
        = afterCors app req (findRoute app.routes req.method (pathOf req.url))
            (res403 req.origin) [Ev.corsRun .forbidden] := by
      unfold dispatch
      rw [if_neg (by rintro ⟨h, -⟩; exact hm h),
        if_neg (by rintro ⟨-, h⟩; exact hm h), hcp]
    rcases hpr : parseBody req.method req.contentType req.chunks
        (effBodyOpts app (findRoute app.routes req.method (pathOf req.url)))
      with e | p
    · -- body parse rejected
      have hd2 : dispatch app req = parseErrorPhase app e (res403 req.origin)
          ([Ev.corsRun .forbidden] ++ [Ev.bodyParseRun]) := by
        rw [hd]
        unfold afterCors
        simp only [hpr]
      by_cases hcode : e.code = some "PAYLOAD_TOO_LARGE"
      · have hjson : resJson (resStatus (res403 req.origin) 413) (payload413Body e.message)
            = (resStatus (res403 req.origin) 413, true) := rfl
        have hoc : outerCatch app headersSentErr (resStatus (res403 req.origin) 413)
            ([Ev.corsRun .forbidden] ++ [Ev.bodyParseRun] ++ [Ev.resp413])
            = (resStatus (res403 req.origin) 413,
               [Ev.corsRun .forbidden] ++ [Ev.bodyParseRun] ++ [Ev.resp413], .done) := by
          unfold outerCatch
          rw [if_pos (show (resStatus (res403 req.origin) 413).headersSent = true from rfl)]
        have hd3 : dispatch app req = (resStatus (res403 req.origin) 413,
            [Ev.corsRun .forbidden] ++ [Ev.bodyParseRun] ++ [Ev.resp413], .done) := by
          rw [hd2]
          unfold parseErrorPhase
          rw [if_pos hcode]
          simp only [hjson]
          rw [hoc]
        have hh : handleRequest app req = ⟨resStatus (res403 req.origin) 413,
            [Ev.corsRun .forbidden] ++ [Ev.bodyParseRun] ++ [Ev.resp413], .done,
            coercedQueryOf req.url⟩ := by
          unfold handleRequest
          rw [hd3]
        rw [hh]
        refine ⟨⟨by simp, by simp, by simp⟩, fun ho => absurd ho hm,
          fun _ => by simp, fun _ _ => ⟨rfl, rfl, by simp⟩⟩
      · -- other body error: vacuous last conjunct, shape lemma for the rest
        obtain ⟨extra, hx, hall⟩ := parseErrorPhase_shape app e (res403 req.origin)
          ([Ev.corsRun .forbidden] ++ [Ev.bodyParseRun])
        have hev : (handleRequest app req).events
            = ([Ev.corsRun .forbidden] ++ [Ev.bodyParseRun]) ++ extra := by
          unfold handleRequest
          rw [hd2]
          rcases hpe : parseErrorPhase app e (res403 req.origin)
              ([Ev.corsRun .forbidden] ++ [Ev.bodyParseRun]) with ⟨r1, evs1, oc1⟩
          rw [hpe] at hx
          simpa using hx
        refine ⟨⟨?_, ?_, ?_⟩, fun ho => absurd ho hm, fun _ => ?_, fun _ hall413 => ?_⟩
        · intro i b hmem
          rw [hev] at hmem
          rcases List.mem_append.mp hmem with hmem | hmem
          · simp at hmem
          · exact (hall _ hmem).1 i b rfl
        · intro i b hmem
          rw [hev] at hmem
          rcases List.mem_append.mp hmem with hmem | hmem
          · simp at hmem
          · exact (hall _ hmem).2.1 i b rfl
        · intro b hmem
          rw [hev] at hmem
          rcases List.mem_append.mp hmem with hmem | hmem
          · simp at hmem
          · exact (hall _ hmem).2.2 b rfl
        · rw [hev]
          simp
        · exact absurd (hall413 e rfl) hcode
    · -- body parse succeeded
      have hd2 : dispatch app req = (res403 req.origin,
          [Ev.corsRun .forbidden] ++ [Ev.bodyParseRun], .done) := by
        rw [hd]
        unfold afterCors
        simp only [hpr]
        unfold afterParse
        rcases runGlobalMws_sent app.errorHandlers req.url app.middlewares 0
            (res403 req.origin) rfl with hgl | hgl
        · rw [hgl]
          simp
        · rw [hgl]
          show lookupPhase app (findRoute app.routes req.method (pathOf req.url))
              (res403 req.origin)
              ([Ev.corsRun CorsStep.forbidden] ++ [Ev.bodyParseRun] ++ []) = _
          unfold lookupPhase
          rw [if_pos (show (res403 req.origin).headersSent = true from rfl)]
          simp
      have hh : handleRequest app req = ⟨res403 req.origin,
          [Ev.corsRun .forbidden] ++ [Ev.bodyParseRun], .done,
          coercedQueryOf req.url⟩ := by
        unfold handleRequest
        rw [hd2]
      rw [hh]
      refine ⟨⟨by simp, by simp, by simp⟩, fun ho => absurd ho hm,
        fun _ => by simp, fun _ _ => ⟨rfl, rfl, by simp⟩⟩

end Lieko

namespace Lieko

def mwMark : Mw := fun r => (r, .next none)

def capp2 : App :=
  { corsOptions := { enabled := true, strictOrigin := true, origin := .inl "https://a.com" },
    routes := [addRouteOne true "POST" "/x" [] noopHandler],
    middlewares := [⟨none, mwMark⟩],
    errorHandlers := [],
    notFoundHandler := none,
    bodyParserOptions := defaultBodyOpts }

def creq2 : Req :=
  { method := "POST", url := "/x", origin := "https://evil.com",
    contentType := "application/json", chunks := ["\x7b\x7d"] }

/-- C2, counterexample.  The claim says that after the strict-origin 403
short-circuit no further pipeline stage runs, body parsing included.  On
this POST request (app-wide strict CORS, non-matching origin) the response
is indeed the 403 — but the body-parse stage still executes: the trace of
`_handleRequest` contains the body-parse event after the CORS
rejection. -/
theorem ce_C2 :
    (handleRequest capp2 creq2).res.sentStatus = some 403
    ∧ Ev.bodyParseRun ∈ (handleRequest capp2 creq2).events := by
  exact ⟨by decide, by decide⟩

theorem thm_C2_amended_witness :
    (∀ b, Ev.handlerRun b ∉ (handleRequest capp2 creq2).events)
    ∧ Ev.bodyParseRun ∈ (handleRequest capp2 creq2).events := by
  have h5 : ∀ r ∈ capp2.routes, r.cors = RouteCors.unset := by
    intro r hr
    have hr1 : r = addRouteOne true "POST" "/x" [] noopHandler := by
      simpa [capp2] using hr
    rw [hr1]
    rfl
  have h := thm_C2_amended capp2 creq2 rfl rfl (by decide) (by decide) h5
  exact ⟨h.1.2.2, h.2.2.1 (by decide)⟩

end Lieko

namespace Lieko

/-! ## C5: the sent-flag discipline -/

/-- The "checked before acting" property of one trace event: every
middleware-entry and handler event was recorded with the headers-sent
flag observed false at its entry. -/
def safeFlag : Ev → Prop
  | .globalMwRun _ b => b = false
  | .routeMwRun _ b => b = false
  | .handlerRun b => b = false
  | _ => True

def EvsSafe (l : List Ev) : Prop :=
  ∀ ev ∈ l, safeFlag ev

theorem nonStage_safe (ev : Ev) (h : nonStage ev) : safeFlag ev := by
  cases ev with
  | globalMwRun i b => exact absurd rfl (h.1 i b)
  | routeMwRun i b => exact absurd rfl (h.2.1 i b)
  | handlerRun b => exact absurd rfl (h.2.2 b)
  | _ => trivial

theorem EvsSafe_append {l1 l2 : List Ev} (h1 : EvsSafe l1) (h2 : EvsSafe l2) :
    EvsSafe (l1 ++ l2) := by
  intro ev hev
  rcases List.mem_append.mp hev with hev | hev
  · exact h1 ev hev
  · exact h2 ev hev

theorem outerCatch_safe (app : App) (e : JsError) (res : Res) (evs : List Ev)
    (h : EvsSafe evs) : EvsSafe (outerCatch app e res evs).2.1 := by
  obtain ⟨extra, hx, hall⟩ := outerCatch_shape app e res evs
  rw [hx]
  refine EvsSafe_append h ?_
  intro ev hev
  rw [hall ev hev]
  trivial

theorem runGlobalMws_safe (eh : List ErrH) (url : String) :
    ∀ (l : List MwEntry) (i : Nat) (res : Res),
      EvsSafe (runGlobalMws eh url l i res).2.1 := by
  intro l
  induction l with
  | nil => intro i res ev hev; simp [runGlobalMws] at hev
  | cons mw rest ih =>
    intro i res
    unfold runGlobalMws
    by_cases hs : res.headersSent = true
    · rw [if_pos hs]
      intro ev hev
      simp at hev
    · rw [if_neg hs]
      have hs0 : res.headersSent = false := by
        simpa using hs
      have hev0 : safeFlag (Ev.globalMwRun i res.headersSent) := by
        simpa [safeFlag] using hs0
      by_cases hex : (match mw.mwPath with
          | none => true
          | some p => p.data.isPrefixOf url.data) = false
      · rw [if_pos hex]
        exact ih (i + 1) res
      · rw [if_neg hex]
        rcases hmw : mw.handler res with ⟨res1, act⟩
        cases act with
        | next e0 =>
          cases e0 with
          | none =>
            show EvsSafe ((match runGlobalMws eh url rest (i + 1) res1 with
              | (res2, evs, ex) =>
                (res2, Ev.globalMwRun i res.headersSent :: evs, ex)).2.1)
            rcases hg : runGlobalMws eh url rest (i + 1) res1 with ⟨res2, evs2, ex2⟩
            show EvsSafe (Ev.globalMwRun i res.headersSent :: evs2)
            intro ev hev
            rcases List.mem_cons.mp hev with hev | hev
            · subst hev; exact hev0
            · have hsafe := ih (i + 1) res1
              rw [hg] at hsafe
              exact hsafe ev hev
          | some e =>
            show EvsSafe ((match runErrorHandlers eh e res1 with
              | (res2, out) =>
                match out with
                | EhOut.ok =>
                  match runGlobalMws eh url rest (i + 1) res2 with
                  | (res3, evs, ex) =>
                    (res3, Ev.globalMwRun i res.headersSent
                      :: Ev.errorChainRun res1.headersSent :: evs, ex)
                | EhOut.stalled =>
                  (res2, [Ev.globalMwRun i res.headersSent,
                    Ev.errorChainRun res1.headersSent], LoopExit.hang)
                | EhOut.threw e1 =>
                  (res2, [Ev.globalMwRun i res.headersSent,
                    Ev.errorChainRun res1.headersSent], LoopExit.hang)).2.1)
            rcases hre : runErrorHandlers eh e res1 with ⟨res2, out⟩
            cases out with
            | ok =>
              show EvsSafe ((match runGlobalMws eh url rest (i + 1) res2 with
                | (res3, evs, ex) =>
                  (res3, Ev.globalMwRun i res.headersSent
                    :: Ev.errorChainRun res1.headersSent :: evs, ex)).2.1)
              rcases hg : runGlobalMws eh url rest (i + 1) res2 with ⟨res3, evs3, ex3⟩
              show EvsSafe (Ev.globalMwRun i res.headersSent
                :: Ev.errorChainRun res1.headersSent :: evs3)
              intro ev hev
              rcases List.mem_cons.mp hev with hev | hev
              · subst hev; exact hev0
              rcases List.mem_cons.mp hev with hev | hev
              · subst hev; trivial
              · have hsafe := ih (i + 1) res2
                rw [hg] at hsafe
                exact hsafe ev hev
            | stalled =>
              show EvsSafe [Ev.globalMwRun i res.headersSent,
                Ev.errorChainRun res1.headersSent]
              intro ev hev
              rcases List.mem_cons.mp hev with hev | hev
              · subst hev; exact hev0
              · simp at hev
                subst hev
                trivial
            | threw e1 =>
              show EvsSafe [Ev.globalMwRun i res.headersSent,
                Ev.errorChainRun res1.headersSent]
              intro ev hev
              rcases List.mem_cons.mp hev with hev | hev
              · subst hev; exact hev0
              · simp at hev
                subst hev
                trivial
        | pResolve =>
          show EvsSafe ((match runGlobalMws eh url rest (i + 1) res1 with
            | (res2, evs, ex) =>
              (res2, Ev.globalMwRun i res.headersSent :: evs, ex)).2.1)
          rcases hg : runGlobalMws eh url rest (i + 1) res1 with ⟨res2, evs2, ex2⟩
          show EvsSafe (Ev.globalMwRun i res.headersSent :: evs2)
          intro ev hev
          rcases List.mem_cons.mp hev with hev | hev
          · subst hev; exact hev0
          · have hsafe := ih (i + 1) res1
            rw [hg] at hsafe
            exact hsafe ev hev
        | pReject e =>
          show EvsSafe [Ev.globalMwRun i res.headersSent]
          intro ev hev
          simp at hev
          subst hev
          exact hev0

theorem runRouteMws_safe (eh : List ErrH) :
    ∀ (l : List Mw) (i : Nat) (res : Res),
      EvsSafe (runRouteMws eh l i res).2.1 := by
  intro l
  induction l with
  | nil => intro i res ev hev; simp [runRouteMws] at hev
  | cons mw rest ih =>
    intro i res
    unfold runRouteMws
    by_cases hs : res.headersSent = true
    · rw [if_pos hs]
      intro ev hev
      simp at hev
    · rw [if_neg hs]
      have hs0 : res.headersSent = false := by
        simpa using hs
      have hev0 : safeFlag (Ev.routeMwRun i res.headersSent) := by
        simpa [safeFlag] using hs0
      rcases hmw : mw res with ⟨res1, act⟩
      cases act with
      | next e0 =>
        cases e0 with
        | none =>
          show EvsSafe ((match runRouteMws eh rest (i + 1) res1 with
            | (res2, evs, ex) =>
              (res2, Ev.routeMwRun i res.headersSent :: evs, ex)).2.1)
          rcases hg : runRouteMws eh rest (i + 1) res1 with ⟨res2, evs2, ex2⟩
          show EvsSafe (Ev.routeMwRun i res.headersSent :: evs2)
          intro ev hev
          rcases List.mem_cons.mp hev with hev | hev
          · subst hev; exact hev0
          · have hsafe := ih (i + 1) res1
            rw [hg] at hsafe
            exact hsafe ev hev
        | some e =>
          show EvsSafe ((match runErrorHandlers eh e res1 with
            | (res2, out) =>
              match out with
              | EhOut.ok =>
                match runRouteMws eh rest (i + 1) res2 with
                | (res3, evs, ex) =>
                  (res3, Ev.routeMwRun i res.headersSent
                    :: Ev.errorChainRun res1.headersSent :: evs, ex)
              | EhOut.stalled =>
                (res2, [Ev.routeMwRun i res.headersSent,
                  Ev.errorChainRun res1.headersSent], LoopExit.hang)
              | EhOut.threw e1 =>
                (res2, [Ev.routeMwRun i res.headersSent,
                  Ev.errorChainRun res1.headersSent], LoopExit.hang)).2.1)
          rcases hre : runErrorHandlers eh e res1 with ⟨res2, out⟩
          cases out with
          | ok =>
            show EvsSafe ((match runRouteMws eh rest (i + 1) res2 with
              | (res3, evs, ex) =>
                (res3, Ev.routeMwRun i res.headersSent
                  :: Ev.errorChainRun res1.headersSent :: evs, ex)).2.1)
            rcases hg : runRouteMws eh rest (i + 1) res2 with ⟨res3, evs3, ex3⟩
            show EvsSafe (Ev.routeMwRun i res.headersSent
              :: Ev.errorChainRun res1.headersSent :: evs3)
            intro ev hev
            rcases List.mem_cons.mp hev with hev | hev
            · subst hev; exact hev0
            rcases List.mem_cons.mp hev with hev | hev
            · subst hev; trivial
            · have hsafe := ih (i + 1) res2
              rw [hg] at hsafe
              exact hsafe ev hev
          | stalled =>
            show EvsSafe [Ev.routeMwRun i res.headersSent,
              Ev.errorChainRun res1.headersSent]
            intro ev hev
            rcases List.mem_cons.mp hev with hev | hev
            · subst hev; exact hev0
            · simp at hev
              subst hev
              trivial
          | threw e1 =>
            show EvsSafe [Ev.routeMwRun i res.headersSent,
              Ev.errorChainRun res1.headersSent]
            intro ev hev
            rcases List.mem_cons.mp hev with hev | hev
            · subst hev; exact hev0
            · simp at hev
              subst hev
              trivial
      | pResolve =>
        show EvsSafe ((match runRouteMws eh rest (i + 1) res1 with
          | (res2, evs, ex) =>
            (res2, Ev.routeMwRun i res.headersSent :: evs, ex)).2.1)
        rcases hg : runRouteMws eh rest (i + 1) res1 with ⟨res2, evs2, ex2⟩
        show EvsSafe (Ev.routeMwRun i res.headersSent :: evs2)
        intro ev hev
        rcases List.mem_cons.mp hev with hev | hev
        · subst hev; exact hev0
        · have hsafe := ih (i + 1) res1
          rw [hg] at hsafe
          exact hsafe ev hev
      | pReject e =>
        show EvsSafe [Ev.routeMwRun i res.headersSent]
        intro ev hev
        simp at hev
        subst hev
        exact hev0

end Lieko

namespace Lieko

theorem parseErrorPhase_safe (app : App) (e : JsError) (res : Res) (evs : List Ev)
    (h : EvsSafe evs) : EvsSafe (parseErrorPhase app e res evs).2.1 := by
  obtain ⟨extra, hx, hall⟩ := parseErrorPhase_shape app e res evs
  rw [hx]
  refine EvsSafe_append h ?_
  intro ev hev
  exact nonStage_safe ev (hall ev hev)

theorem handlerPhase_safe (app : App) (fr : FoundRoute) (res1 : Res) (evs1 : List Ev)
    (h : EvsSafe evs1) : EvsSafe (handlerPhase app fr res1 evs1).2.1 := by
  unfold handlerPhase
  by_cases hs : res1.headersSent = true
  · rw [if_pos hs]
    exact h
  · rw [if_neg hs]
    have hs0 : res1.headersSent = false := by
      simpa using hs
    have h1 : EvsSafe (evs1 ++ [Ev.handlerRun res1.headersSent]) := by
      refine EvsSafe_append h ?_
      intro ev hev
      simp at hev
      subst hev
      simpa [safeFlag] using hs0
    rcases hh : fr.route.handler res1 with ⟨res2, oe⟩
    cases oe with
    | some e =>
      show EvsSafe (outerCatch app e res2 (evs1 ++ [Ev.handlerRun res1.headersSent])).2.1
      exact outerCatch_safe app e res2 _ h1
    | none =>
      show EvsSafe (evs1 ++ [Ev.handlerRun res1.headersSent])
      exact h1

theorem notFoundPhase_safe (app : App) (res : Res) (evs : List Ev)
    (h : EvsSafe evs) : EvsSafe (notFoundPhase app res evs).2.1 := by
  unfold notFoundPhase
  rcases hnf : app.notFoundHandler with _ | nf
  · rcases hj : resJson (resStatus res 404) notFoundBody with ⟨res1, t⟩
    cases t
    · show EvsSafe evs
      exact h
    · show EvsSafe (outerCatch app headersSentErr res1 evs).2.1
      exact outerCatch_safe app headersSentErr res1 evs h
  · show EvsSafe ((match nf res with
      | (res1, some e) => outerCatch app e res1 (evs ++ [Ev.notFoundRun])
      | (res1, none) => (res1, evs ++ [Ev.notFoundRun], Outcome.done)).2.1)
    rcases hr : nf res with ⟨res1, oe⟩
    have h1 : EvsSafe (evs ++ [Ev.notFoundRun]) := by
      refine EvsSafe_append h ?_
      intro ev hev
      simp at hev
      subst hev
      trivial
    cases oe with
    | some e =>
      show EvsSafe (outerCatch app e res1 (evs ++ [Ev.notFoundRun])).2.1
      exact outerCatch_safe app e res1 _ h1
    | none =>
      show EvsSafe (evs ++ [Ev.notFoundRun])
      exact h1

theorem routePhase_safe (app : App) (fr : FoundRoute) (res : Res) (evs : List Ev)
    (h : EvsSafe evs) : EvsSafe (routePhase app fr res evs).2.1 := by
  unfold routePhase
  rcases hr : runRouteMws app.errorHandlers fr.route.middlewares 0 res
    with ⟨res1, rEvs, ex⟩
  have hre : EvsSafe rEvs := by
    have hsafe := runRouteMws_safe app.errorHandlers fr.route.middlewares 0 res
    rw [hr] at hsafe
    exact hsafe
  cases ex with
  | retEarly =>
    show EvsSafe (evs ++ rEvs)
    exact EvsSafe_append h hre
  | hang =>
    show EvsSafe (evs ++ rEvs)
    exact EvsSafe_append h hre
  | thrownE e =>
    show EvsSafe (outerCatch app e res1 (evs ++ rEvs)).2.1
    exact outerCatch_safe app e res1 _ (EvsSafe_append h hre)
  | normal =>
    show EvsSafe (handlerPhase app fr res1 (evs ++ rEvs)).2.1
    exact handlerPhase_safe app fr res1 _ (EvsSafe_append h hre)

theorem lookupPhase_safe (app : App) (route : Option FoundRoute) (res1 : Res)
    (evs1 : List Ev) (h : EvsSafe evs1) :
    EvsSafe (lookupPhase app route res1 evs1).2.1 := by
  unfold lookupPhase
  by_cases hs : res1.headersSent = true
  · rw [if_pos hs]
    exact h
  · rw [if_neg hs]
    cases route with
    | none => exact notFoundPhase_safe app res1 evs1 h
    | some fr => exact routePhase_safe app fr res1 evs1 h

theorem afterParse_safe (app : App) (url : String) (route : Option FoundRoute)
    (res : Res) (evs : List Ev) (h : EvsSafe evs) :
    EvsSafe (afterParse app url route res evs).2.1 := by
  unfold afterParse
  rcases hg : runGlobalMws app.errorHandlers url app.middlewares 0 res
    with ⟨res1, mwEvs, ex⟩
  have hge : EvsSafe mwEvs := by
    have hsafe := runGlobalMws_safe app.errorHandlers url app.middlewares 0 res
    rw [hg] at hsafe
    exact hsafe
  cases ex with
  | retEarly =>
    show EvsSafe (evs ++ mwEvs)
    exact EvsSafe_append h hge
  | hang =>
    show EvsSafe (evs ++ mwEvs)
    exact EvsSafe_append h hge
  | thrownE e =>
    show EvsSafe (outerCatch app e res1 (evs ++ mwEvs)).2.1
    exact outerCatch_safe app e res1 _ (EvsSafe_append h hge)
  | normal =>
    show EvsSafe (lookupPhase app route res1 (evs ++ mwEvs)).2.1
    exact lookupPhase_safe app route res1 _ (EvsSafe_append h hge)

theorem afterCors_safe (app : App) (req : Req) (route : Option FoundRoute)
    (res : Res) (evs : List Ev) (h : EvsSafe evs) :
    EvsSafe (afterCors app req route res evs).2.1 := by
  unfold afterCors
  have h1 : EvsSafe (evs ++ [Ev.bodyParseRun]) := by
    refine EvsSafe_append h ?_
    intro ev hev
    simp at hev
    subst hev
    trivial
  rcases hp : parseBody req.method req.contentType req.chunks (effBodyOpts app route)
    with e | b
  · exact parseErrorPhase_safe app e res _ h1
  · exact afterParse_safe app req.url route res _ h1

theorem corsPhase_safe (app : App) (req : Req) : EvsSafe (corsPhase app req).2 := by
  unfold corsPhase
  rcases hc : effCors app (findRoute app.routes req.method (pathOf req.url)) with _ | o
  · show EvsSafe ([] : List Ev)
    intro ev hev
    simp at hev
  · show EvsSafe ((match applyCors req.origin req.method req.acrpn o initRes with
      | (r, step) => (r, [Ev.corsRun step])).2)
    rcases ha : applyCors req.origin req.method req.acrpn o initRes with ⟨r, step⟩
    show EvsSafe [Ev.corsRun step]
    intro ev hev
    simp at hev
    subst hev
    trivial

theorem dispatch_safe (app : App) (req : Req) : EvsSafe (dispatch app req).2.1 := by
  unfold dispatch
  by_cases h1 : req.method = "OPTIONS" ∧ app.corsOptions.enabled
  · rw [if_pos h1]
    rcases ha : applyCors req.origin req.method req.acrpn app.corsOptions initRes
      with ⟨res1, step⟩
    show EvsSafe [Ev.corsRun step]
    intro ev hev
    simp at hev
    subst hev
    trivial
  · rw [if_neg h1]
    by_cases h2 : (effCors app (findRoute app.routes req.method (pathOf req.url))).isSome
        ∧ req.method = "OPTIONS"
    · rw [if_pos h2]
      show EvsSafe (corsPhase app req).2
      exact corsPhase_safe app req
    · rw [if_neg h2]
      exact afterCors_safe app req _ _ _ (corsPhase_safe app req)

end Lieko

namespace Lieko

/-- C5 (counterexample): `res.html` (`src/lieko-express.js:1974-1978`)
performs no sent-flag check.  After `res.json` on a fresh response has set
`responseSent`, calling `res.html` is not a no-op: it overwrites the raw
status code (200 becomes 500) and calls `end` a second time. -/
theorem ce_C5 :
    (resJson initRes "\x7b\"ok\":true\x7d").1.responseSent = true
      ∧ (resHtml (resJson initRes "\x7b\"ok\":true\x7d").1 "<h1>hi</h1>" 500).nodeStatus
          = 500
      ∧ (resJson initRes "\x7b\"ok\":true\x7d").1.nodeStatus = 200
      ∧ (resHtml (resJson initRes "\x7b\"ok\":true\x7d").1 "<h1>hi</h1>" 500).endCalls = 2
      ∧ (resJson initRes "\x7b\"ok\":true\x7d").1.endCalls = 1 :=
  ⟨rfl, rfl, rfl, rfl, rfl⟩

/-- C5 (amended): the dispatcher-controlled pipeline stages do check the
sent flag — every global-middleware, route-middleware and handler event in
any request's trace is recorded with `headersSent` observed false at its
entry — and `res.json` and `res.send` are no-ops once `responseSent` is
set.  (Not every body-producing method checks: see the `res.html`
counterexample `ce_C5`.) -/
theorem thm_C5_amended (app : App) (req : Req) (res : Res) (body : String)
    (d : SendData) (h : res.responseSent = true) :
    (resJson res body).1 = res ∧ (resSend res d).1 = res
      ∧ ∀ ev ∈ (handleRequest app req).events, safeFlag ev := by
  refine ⟨?_, ?_, ?_⟩
  · unfold resJson
    rw [if_pos h]
  · unfold resSend
    rw [if_pos h]
  · have hsafe := dispatch_safe app req
    unfold handleRequest
    rcases hd : dispatch app req with ⟨res1, evs, oc⟩
    rw [hd] at hsafe
    show ∀ ev ∈ evs, safeFlag ev
    exact hsafe

def app5 : App :=
  { corsOptions := {},
    routes := [],
    middlewares := [],
    errorHandlers := [],
    notFoundHandler := none,
    bodyParserOptions := defaultBodyOpts }

def req5 : Req := { method := "GET", url := "/" }

/-- C5 witness: the amended theorem at a concrete sent response and at a
concrete app and request. -/
theorem thm_C5_amended_witness :
    (resJson initRes "a").1.responseSent = true
      ∧ ((resJson (resJson initRes "a").1 "b").1 = (resJson initRes "a").1
      ∧ (resSend (resJson initRes "a").1 (SendData.strD "c")).1 = (resJson initRes "a").1
      ∧ ∀ ev ∈ (handleRequest app5 req5).events, safeFlag ev) :=
  ⟨rfl, thm_C5_amended app5 req5 (resJson initRes "a").1 "b" (SendData.strD "c") rfl⟩

end Lieko
